import Mathlib

/-!
Verification of the SEEDS simulation engine (briandconnelly/seeds).

Shallow embedding notes:
* Python floats are modelled as `ℚ` (all constants appearing in the claims
  are exact decimals, and the control flow of the embedded functions only
  compares, adds, multiplies and divides them).
* Python ints are modelled as `ℕ`/`ℤ`; list indices as `ℕ`.
* `random.random()` draws are passed in explicitly (as `ℚ` values in `[0,1)`),
  `random.choice` picks are passed in as explicit indices.
* Fallible operations (Python exceptions) are modelled with `Option`/`Except`.

The file is organised as: all definitions (the embedding), then all theorems.
-/

/-! # Definitions -/

/-! ## seeds/utils/geometry.py -/

/-- `is_numeric` from seeds/utils/numeric.py applied to a coordinate tuple:
`float(tuple)` raises `TypeError`, so the result is `False` for every tuple.
In `minkowski_distance_p` the only values reaching the `is_numeric` branch are
tuples (coordinate points), hence that branch always leaves `dist = -1`. -/
def is_numeric_tuple (_ : List ℚ) : Bool := false

/-- `minkowski_distance_p` (seeds/utils/geometry.py, lines 12-56).
Returns `none` for the dimension-mismatch branch (Python prints an error and
falls off the function, returning `None`).  For points of dimension > 1 it
sums, per dimension, `min(|Δ|, |1-|Δ||)^p` in the periodic case and the
*signed* power `Δ^p` in the non-periodic case (the source has no `abs` on the
non-periodic branch).  For dimension ≤ 1 the tuple is not numeric, so the
initial value `-1` is returned. -/
def minkowski_distance_p (point1 point2 : List ℚ) (p : ℕ) (periodic : Bool) :
    Option ℚ :=
  if point1.length ≠ point2.length then
    none
  else if 1 < point1.length then
    some (((point1.zip point2).map (fun c =>
      if periodic then
        (min (abs (c.1 - c.2)) (abs (1 - abs (c.1 - c.2)))) ^ p
      else
        (c.1 - c.2) ^ p)).sum)
  else if is_numeric_tuple point1 ∧ is_numeric_tuple point2 then
    some 0   -- unreachable: is_numeric_tuple is always false
  else
    some (-1)

/-- `manhattan_distance` (seeds/utils/geometry.py, lines 117-133):
`minkowski_distance` with `p = 1`; the final root `**(1.0/1)` is the
identity, so the value equals `minkowski_distance_p` at `p = 1`. -/
def manhattan_distance (p1 p2 : List ℚ) (periodic : Bool) : Option ℚ :=
  minkowski_distance_p p1 p2 1 periodic

/-- `euclidean_distance_squared` (seeds/utils/geometry.py, lines 97-115):
`minkowski_distance_p` with `p = 2`.  `euclidean_distance` is its square
root; since `sqrt s < r ↔ s < r²` for `r > 0, s ≥ 0`, all comparisons of the
form `euclidean_distance < r` in the code are embedded through this squared
version. -/
def euclidean_distance_squared (p1 p2 : List ℚ) (periodic : Bool) : Option ℚ :=
  minkowski_distance_p p1 p2 2 periodic

/-! ## seeds/plugins/resource/NormalResource.py -/

/-- Stable ascending insertion by level (second component), preserving the
relative order of equal levels, as Python's stable `list.sort` does. -/
def insertAscLevel (x : ℕ × ℚ) : List (ℕ × ℚ) → List (ℕ × ℚ)
  | [] => [x]
  | y :: ys => if x.2 < y.2 then x :: y :: ys else y :: insertAscLevel x ys

/-- Stable sort (ascending by level) of the low-neighbor list, matching
`low_neighbors.sort(key=attrgetter('level'))`. -/
def sortAscLevel (l : List (ℕ × ℚ)) : List (ℕ × ℚ) :=
  l.foldr insertAscLevel []

/-- One iteration of the diffusion loop of `NormalResource.update`
(lines 182-186): state is (focal level, neighbor levels); `j` is the index of
the neighbor being visited.  If the focal level is still above the neighbor's
current level, `xfer = min(self.level, self.level - n.level) * diffusion` is
moved from the focal cell to the neighbor. -/
def diffusionStep (diffusion : ℚ) (st : ℚ × List ℚ) (j : ℕ) : ℚ × List ℚ :=
  let nl := st.2.getD j 0
  if st.1 > nl then
    let xfer := min st.1 (st.1 - nl) * diffusion
    (st.1 - xfer, st.2.set j (nl + xfer))
  else
    st

/-- `NormalResource.update` (seeds/plugins/resource/NormalResource.py,
lines 161-189), acting on the focal cell's level and the levels of its
neighboring resource cells (returned as (focal level, neighbor levels)).
Steps: `newlevel = level*(1-decay) + inflow`; `level = max(0, newlevel)`;
collect neighbors with strictly lower level, sort ascending (stable);
run the diffusion loop; finally line 188 executes
`self.level = max(0, newlevel)` again, overwriting the focal level with its
pre-diffusion value. -/
def normalResource_update (inflow decay diffusion : ℚ) (level : ℚ)
    (nbrs : List ℚ) : ℚ × List ℚ :=
  let newlevel := level * (1 - decay) + inflow
  let level1 := max 0 newlevel
  let indexed := (List.range nbrs.length).map (fun i => (i, nbrs.getD i 0))
  let low := sortAscLevel (indexed.filter (fun c => c.2 < level1))
  let st := low.foldl (fun s c => diffusionStep diffusion s c.1) (level1, nbrs)
  (max 0 newlevel, st.2)

/-- The update sequence exactly as the spec states it (claim C3): identical to
`normalResource_update` except that the focal cell keeps the level resulting
from the diffusion transfers (the source's line 188, which overwrites it with
`max(0, newlevel)`, is absent). -/
def normalResource_update_specSequence (inflow decay diffusion : ℚ)
    (level : ℚ) (nbrs : List ℚ) : ℚ × List ℚ :=
  let newlevel := level * (1 - decay) + inflow
  let level1 := max 0 newlevel
  let indexed := (List.range nbrs.length).map (fun i => (i, nbrs.getD i 0))
  let low := sortAscLevel (indexed.filter (fun c => c.2 < level1))
  let st := low.foldl (fun s c => diffusionStep diffusion s c.1) (level1, nbrs)
  st

/-! ## seeds/Population.py : type counts and transitions -/

/-- Value of entry `t` of a type-count list (0 when the list is shorter, which
matches the fact that a type never counted has no entry). -/
def tcVal (tc : List ℤ) (t : ℕ) : ℤ := tc.getD t 0

/-- Brute-force census: the number of cells of type `t` in a list of cell
types (the scan count the claim compares `type_count` with). -/
def countEq : List ℕ → ℕ → ℕ
  | [], _ => 0
  | c :: cs, t => (if c = t then 1 else 0) + countEq cs t

/-- `Population.increment_type_count` (seeds/Population.py, lines 136-148):
extend the list with zeros so index `type` exists, then add 1 there. -/
def increment_type_count (tc : List ℤ) (t : ℕ) : List ℤ :=
  let tc1 := if tc.length ≤ t then tc ++ List.replicate (1 + t - tc.length) 0
             else tc
  tc1.set t (tc1.getD t 0 + 1)

/-- `Population.decrement_type_count` (seeds/Population.py, lines 150-160):
subtract 1 at index `type`; raises `IndexError` (here: `none`) when the index
does not exist. -/
def decrement_type_count (tc : List ℤ) (t : ℕ) : Option (List ℤ) :=
  if t < tc.length then some (tc.set t (tc.getD t 0 - 1)) else none

/-- `Population.add_transition` (seeds/Population.py, lines 179-191):
`transitions[fromtype][totype] += 1`; `none` models an `IndexError`. -/
def add_transition (m : List (List ℤ)) (f t : ℕ) : Option (List (List ℤ)) :=
  if f < m.length then
    if t < (m.getD f []).length then
      some (m.set f ((m.getD f []).set t ((m.getD f []).getD t 0 + 1)))
    else none
  else none

/-- `Population.update_type_count` (seeds/Population.py, lines 162-177):
decrement the `from` count, increment the `to` count, record the transition.
Acts on the pair (type_count, transitions). -/
def update_type_count (tc : List ℤ) (m : List (List ℤ)) (f t : ℕ) :
    Option (List ℤ × List (List ℤ)) :=
  (decrement_type_count tc f).bind (fun tc1 =>
    (add_transition m f t).map (fun m1 => (increment_type_count tc1 t, m1)))

/-- The type-count list produced by Population construction: every cell's
`__init__` calls `increment_type_count(self.type)` once, in node order,
starting from the empty list set up by `Population.__init__`. -/
def construct_type_count (cells : List ℕ) : List ℤ :=
  cells.foldl increment_type_count []

/-- The census invariant of claim C1: every entry of `type_count` equals the
brute-force scan count for that type, and the entries sum to the number of
nodes. -/
def census_ok (cells : List ℕ) (tc : List ℤ) : Prop :=
  (∀ t, tcVal tc t = (countEq cells t : ℤ)) ∧ tc.sum = (cells.length : ℤ)

/-! ## seeds/plugins/cell/GameOfLifeCell.py -/

/-- `GameOfLifeCell.update` (seeds/plugins/cell/GameOfLifeCell.py, lines
72-101) as a function of the cell's type and its neighbors' types.  Types:
`ALIVE = 0`, `DEAD = 1`.  Returns the new type, the list of
`update_type_count(from, to)` calls made, and whether the zero-neighbor
warning was printed (in which case the update returns without changing
anything; the run continues). -/
def gol_update (selfT : ℕ) (nbrTypes : List ℕ) : ℕ × List (ℕ × ℕ) × Bool :=
  if nbrTypes.length < 1 then (selfT, [], true)
  else if selfT = 0 ∧ countEq nbrTypes 0 < 2 then (1, [(0, 1)], false)
  else if selfT = 0 ∧ 3 < countEq nbrTypes 0 then (1, [(0, 1)], false)
  else if selfT = 1 ∧ countEq nbrTypes 0 = 3 then (0, [(1, 0)], false)
  else (selfT, [], false)

/-- One Game-of-Life cell update at node `i` of the population, with `nbrs`
the node's neighbor list (indices), threading the population bookkeeping:
the cell's reported `update_type_count` calls are applied to
(type_count, transitions).  `none` models a raised `IndexError`. -/
def gol_population_step (cells : List ℕ) (tc : List ℤ) (m : List (List ℤ))
    (i : ℕ) (nbrs : List ℕ) : Option (List ℕ × List ℤ × List (List ℤ)) :=
  match gol_update (cells.getD i 0) (nbrs.map (fun j => cells.getD j 0)) with
  | (_, [], _) => some (cells, tc, m)
  | (newT, (f, t) :: _, _) =>
      (update_type_count tc m f t).map (fun p => (cells.set i newT, p.1, p.2))

/-! ## seeds/plugins/cell/Kerr07Cell.py and the Population.update epoch -/

/-- `Kerr07Cell.update` (seeds/plugins/cell/Kerr07Cell.py, lines 114-161) as a
function of the cell's type, its neighbors' types, the `random.choice` index
(`choice`, reduced modulo the neighbor count) and the `random.random()` draw
`u`.  Types: `EMPTY = 0`, `SENSITIVE = 1`, `RESISTANT = 2`, `PRODUCER = 3`.
Returns the new type together with the `update_type_count(from, to)` calls
made.  `none` models the exception raised on an empty neighbor list
(`random.choice([])` in the EMPTY branch, division by zero in the SENSITIVE
branch).  Note the EMPTY branch records `update_type_count(EMPTY, parent)`
unconditionally, even when the chosen parent is itself EMPTY. -/
def kerr_update (ds dr dp tp : ℚ) (selfT : ℕ) (nbrTypes : List ℕ)
    (choice : ℕ) (u : ℚ) : Option (ℕ × List (ℕ × ℕ)) :=
  if selfT = 0 then
    if nbrTypes = [] then none
    else
      some (nbrTypes.getD (choice % nbrTypes.length) 0,
            [(0, nbrTypes.getD (choice % nbrTypes.length) 0)])
  else if selfT = 1 then
    if nbrTypes = [] then none
    else
      if u < ds + tp * ((countEq nbrTypes 3 : ℚ) / (nbrTypes.length : ℚ))
      then some (0, [(1, 0)]) else some (1, [])
  else if selfT = 2 then
    if u < dr then some (0, [(2, 0)]) else some (2, [])
  else if selfT = 3 then
    if u < dp then some (0, [(3, 0)]) else some (3, [])
  else some (selfT, [])   -- invalid type: error printed, nothing changed

/-- The population state threaded through a Kerr07 epoch: cell types by node,
the type-count list, the transitions matrix, and (embedding ghost, not in the
source) the number of `update_type_count` calls made so far this epoch. -/
structure KerrState where
  cells : List ℕ
  tc : List ℤ
  transitions : List (List ℤ)
  nevents : ℕ
deriving DecidableEq

/-- One scheduled Kerr07 cell update, threading the population bookkeeping:
an event is (node index, choice index, random draw). -/
def kerr_node_update (ds dr dp tp : ℚ) (nbrsOf : ℕ → List ℕ)
    (st : KerrState) (ev : ℕ × ℕ × ℚ) : Option KerrState :=
  match kerr_update ds dr dp tp (st.cells.getD ev.1 0)
      ((nbrsOf ev.1).map (fun j => st.cells.getD j 0)) ev.2.1 ev.2.2 with
  | none => none
  | some (newT, []) => some { st with cells := st.cells.set ev.1 newT }
  | some (newT, (f, t) :: _) =>
      (update_type_count st.tc st.transitions f t).map (fun p =>
        { cells := st.cells.set ev.1 newT, tc := p.1, transitions := p.2,
          nevents := st.nevents + 1 })

/-- The all-zero transitions matrix `[[0]*num_types for i in range(num_types)]`
with `num_types = Kerr07Cell.max_types = 4`. -/
def kerr_zero_transitions : List (List ℤ) :=
  List.replicate 4 (List.replicate 4 0)

/-- `Population.update` (seeds/Population.py, lines 107-130) specialised to
Kerr07 cells: reset the transitions matrix to all zeros (and the ghost event
counter), then update the sampled nodes in order. -/
def kerr_epoch (ds dr dp tp : ℚ) (nbrsOf : ℕ → List ℕ) (st : KerrState)
    (events : List (ℕ × ℕ × ℚ)) : Option KerrState :=
  events.foldlM (kerr_node_update ds dr dp tp nbrsOf)
    { st with transitions := kerr_zero_transitions, nevents := 0 }

/-- Sum of all entries of a transitions matrix. -/
def matSum (m : List (List ℤ)) : ℤ := (m.map List.sum).sum

/-! ## seeds/plugins/cell/QuasispeciesCell.py -/

/-- `QuasispeciesCell.flip_bit` (lines 139-144). -/
def flip_bit (bit : ℕ) : ℕ := if bit = 0 then 1 else 0

/-- Worker for `mutate`: walks the genotype consuming one `random.random()`
draw per site (`rnd i` is the draw for site `i`). -/
def mutate_go (site_mut_rate : ℚ) (rnd : ℕ → ℚ) : List ℕ → ℕ → List ℕ
  | [], _ => []
  | bit :: rest, i =>
      (if rnd i < site_mut_rate then flip_bit bit else bit) ::
        mutate_go site_mut_rate rnd rest (i + 1)

/-- `QuasispeciesCell.mutate` (lines 146-155): per-site bit flip with
probability `site_mut_rate`, one uniform draw per site. -/
def mutate (site_mut_rate : ℚ) (genotype : List ℕ) (rnd : ℕ → ℚ) : List ℕ :=
  mutate_go site_mut_rate rnd genotype 0

/-- `QuasispeciesCell.get_fitness` (lines 158-172): fraction of ones in
`genotype[1:]`, raised to `narrow_polynomial_order` on the narrow peak
(first bit 0) or scaled by `wide_max_value` on the wide peak.  The order is
embedded as a natural exponent (the config examples use integers); genotypes
have length ≥ 2 by the constructor's check, so the division is well-defined. -/
def get_fitness (order : ℕ) (wideMax : ℚ) (g : List ℕ) : ℚ :=
  if g.headD 0 = 0 then
    ((countEq g.tail 1 : ℚ) / (g.tail.length : ℚ)) ^ order
  else
    ((countEq g.tail 1 : ℚ) / (g.tail.length : ℚ)) * wideMax

/-- The scanning loop of `choose_neighbor` (lines 188-193): find the first
index whose normalized-fitness interval contains the draw `r`; `psum` is the
running partial sum. -/
def roulette_index (norm : List ℚ) (r : ℚ) (psum : ℚ) : Option ℕ :=
  match norm with
  | [] => none
  | nf :: rest =>
      if psum ≤ r ∧ r ≤ psum + nf then some 0
      else (roulette_index rest r (psum + nf)).map (fun i => i + 1)

/-- `QuasispeciesCell.choose_neighbor` (lines 175-196): roulette-wheel
selection among the organisms by fitness; a tiny constant `1e-7` is added to
the fitness sum; if the scan finds no index the last organism is returned
(`orgs[-1]`, which raises on an empty list — modelled as `none`). -/
def choose_neighbor (order : ℕ) (wideMax : ℚ) (orgs : List (ℕ × List ℕ))
    (r : ℚ) : Option (ℕ × List ℕ) :=
  if orgs = [] then none
  else
    match roulette_index
        ((orgs.map (fun o => get_fitness order wideMax o.2)).map
          (fun f => f / ((orgs.map (fun o => get_fitness order wideMax o.2)).sum
            + 1 / 10 ^ 7))) r 0 with
    | some i => some (orgs.getD i (0, []))
    | none => some (orgs.getD (orgs.length - 1) (0, []))

/-- `QuasispeciesCell.update` (lines 206-231) as a function of the cell's
type and genotype, its neighbors (type, genotype pairs), the roulette draw
`rc`, the per-site mutation draws `rnd`, and the death draw `du`.  Types:
`EMPTY = 0`, `NARROW = 1`, `WIDE = 2`.  Returns (new type, new genotype,
`update_type_count` events); `none` models the exception on an empty
neighbor list.  An Empty cell adopts the chosen parent's type; if that is not
Empty it copies the parent's genotype through `mutate` and re-derives its
type from the new genotype's first bit; otherwise nothing else changes.
Occupied cells die (become Empty) when the death draw falls below
`death_rate`. -/
def quasi_update (death_rate site_mut_rate : ℚ) (order : ℕ) (wideMax : ℚ)
    (selfT : ℕ) (selfG : List ℕ) (nbrs : List (ℕ × List ℕ))
    (rc : ℚ) (rnd : ℕ → ℚ) (du : ℚ) :
    Option (ℕ × List ℕ × List (ℕ × ℕ)) :=
  if selfT = 0 then
    (choose_neighbor order wideMax nbrs rc).map (fun parent =>
      if parent.1 ≠ 0 then
        ((mutate site_mut_rate parent.2 rnd).headD 0 + 1,
          mutate site_mut_rate parent.2 rnd,
          [(0, (mutate site_mut_rate parent.2 rnd).headD 0 + 1)])
      else (parent.1, selfG, [(0, parent.1)]))
  else
    if du < death_rate then some (0, selfG, [(selfT, 0)])
    else some (selfT, selfG, [])

/-- One scheduled quasispecies cell update at node `ev.1` (an event carries
the node index and the three random inputs), applied to the population list
of (type, genotype) pairs. -/
def quasi_pop_step (death_rate site_mut_rate : ℚ) (order : ℕ) (wideMax : ℚ)
    (nbrsOf : ℕ → List ℕ) (pop : List (ℕ × List ℕ))
    (ev : ℕ × ℚ × (ℕ → ℚ) × ℚ) : Option (List (ℕ × List ℕ)) :=
  (quasi_update death_rate site_mut_rate order wideMax
      (pop.getD ev.1 (0, [])).1 (pop.getD ev.1 (0, [])).2
      ((nbrsOf ev.1).map (fun j => pop.getD j (0, [])))
      ev.2.1 ev.2.2.1 ev.2.2.2).map
    (fun r => pop.set ev.1 (r.1, r.2.1))

/-- A sequence of scheduled quasispecies cell updates (any number of epochs:
the epoch boundaries play no role for the genotypes). -/
def quasi_run (death_rate site_mut_rate : ℚ) (order : ℕ) (wideMax : ℚ)
    (nbrsOf : ℕ → List ℕ) (pop : List (ℕ × List ℕ))
    (events : List (ℕ × ℚ × (ℕ → ℚ) × ℚ)) : Option (List (ℕ × List ℕ)) :=
  events.foldlM (quasi_pop_step death_rate site_mut_rate order wideMax nbrsOf)
    pop

/-! ## seeds/Topology.py, topology plugins (graph mutation), RPSCell -/

/-- The SEEDS exceptions relevant to the claims
(seeds/SEEDSError.py). -/
inductive SEEDSErr where
  | configurationError
  | nonExistentNodeError (id : ℤ)
  | nonExistentEdgeError (src dest : ℤ)
  | keyError
deriving DecidableEq

/-- A networkx graph as used by the topologies: node list, undirected edge
list, and the per-node `coords` attribute dictionary. -/
structure PyGraph where
  nodes : List ℤ
  edges : List (ℤ × ℤ)
  coords : List (ℤ × (ℚ × ℚ))
deriving DecidableEq

/-- Replace-or-append in a node-attribute dictionary. -/
def assocSet (l : List (ℤ × (ℚ × ℚ))) (k : ℤ) (v : ℚ × ℚ) :
    List (ℤ × (ℚ × ℚ)) :=
  if l.any (fun p => p.1 = k) then
    l.map (fun p => if p.1 = k then (k, v) else p)
  else l ++ [(k, v)]

/-- `Topology.remove_node` (seeds/Topology.py, lines 162-181): remove the
node and its incident edges; a missing node raises `NonExistentNodeError`
(translated from networkx's error). -/
def topology_remove_node (g : PyGraph) (id : ℤ) : Except SEEDSErr PyGraph :=
  if id ∈ g.nodes then
    Except.ok ⟨g.nodes.filter (fun n => n ≠ id),
      g.edges.filter (fun e => e.1 ≠ id ∧ e.2 ≠ id),
      g.coords.filter (fun p => p.1 ≠ id)⟩
  else Except.error (SEEDSErr.nonExistentNodeError id)

/-- `MooreTopology.add_node` (MooreTopology.py, lines 170-173): raises
`ConfigurationError` unconditionally. -/
def moore_add_node (_g : PyGraph) (_id : ℤ) (_neighbors : List ℤ) :
    Except SEEDSErr PyGraph := Except.error SEEDSErr.configurationError

/-- `MooreTopology.remove_node` (lines 175-179). -/
def moore_remove_node (_g : PyGraph) (_id : ℤ) : Except SEEDSErr PyGraph :=
  Except.error SEEDSErr.configurationError

/-- `MooreTopology.add_edge` (lines 181-184). -/
def moore_add_edge (_g : PyGraph) (_src _dest : ℤ) : Except SEEDSErr PyGraph :=
  Except.error SEEDSErr.configurationError

/-- `MooreTopology.remove_edge` (lines 186-190). -/
def moore_remove_edge (_g : PyGraph) (_src _dest : ℤ) :
    Except SEEDSErr PyGraph := Except.error SEEDSErr.configurationError

/-- `VonNeumannTopology.add_node` (VonNeumannTopology.py). -/
def vonNeumann_add_node (_g : PyGraph) (_id : ℤ) (_neighbors : List ℤ) :
    Except SEEDSErr PyGraph := Except.error SEEDSErr.configurationError

/-- `VonNeumannTopology.remove_node`. -/
def vonNeumann_remove_node (_g : PyGraph) (_id : ℤ) : Except SEEDSErr PyGraph :=
  Except.error SEEDSErr.configurationError

/-- `VonNeumannTopology.add_edge`. -/
def vonNeumann_add_edge (_g : PyGraph) (_src _dest : ℤ) :
    Except SEEDSErr PyGraph := Except.error SEEDSErr.configurationError

/-- `VonNeumannTopology.remove_edge`. -/
def vonNeumann_remove_edge (_g : PyGraph) (_src _dest : ℤ) :
    Except SEEDSErr PyGraph := Except.error SEEDSErr.configurationError

/-- `CartesianTopology.add_node` (CartesianTopology.py, lines 210-213). -/
def cartesian_add_node (_g : PyGraph) (_id : ℤ) (_neighbors : List ℤ) :
    Except SEEDSErr PyGraph := Except.error SEEDSErr.configurationError

/-- `CartesianTopology.remove_node` (lines 215-219). -/
def cartesian_remove_node (_g : PyGraph) (_id : ℤ) : Except SEEDSErr PyGraph :=
  Except.error SEEDSErr.configurationError

/-- `CartesianTopology.add_edge` (lines 221-224). -/
def cartesian_add_edge (_g : PyGraph) (_src _dest : ℤ) :
    Except SEEDSErr PyGraph := Except.error SEEDSErr.configurationError

/-- `CartesianTopology.remove_edge` (lines 226-230). -/
def cartesian_remove_edge (_g : PyGraph) (_src _dest : ℤ) :
    Except SEEDSErr PyGraph := Except.error SEEDSErr.configurationError

/-- `WellMixedTopology.add_edge` (WellMixedTopology.py, lines 115-118):
raises `ConfigurationError`. -/
def wellmixed_add_edge (_g : PyGraph) (_src _dest : ℤ) :
    Except SEEDSErr PyGraph := Except.error SEEDSErr.configurationError

/-- `WellMixedTopology.remove_edge` (lines 120-124): raises
`ConfigurationError`. -/
def wellmixed_remove_edge (_g : PyGraph) (_src _dest : ℤ) :
    Except SEEDSErr PyGraph := Except.error SEEDSErr.configurationError

/-- `WellMixedTopology.add_node` (lines 126-152): does NOT raise
`ConfigurationError`.  With an explicit `id` it adds that node to the graph
and assigns it fresh random coordinates (`draw`).  With the default
`id = -1` it adds node `max+1` but then executes
`self.graph.node[id]['coords'] = ...` with `id` still -1, raising `KeyError`
(the node addition has already mutated the graph at that point; the error
value stands for the raised exception). -/
def wellmixed_add_node (g : PyGraph) (id : ℤ) (draw : ℚ × ℚ) :
    Except SEEDSErr PyGraph :=
  if id = -1 then Except.error SEEDSErr.keyError
  else
    Except.ok ⟨if id ∈ g.nodes then g.nodes else g.nodes ++ [id], g.edges,
      assocSet g.coords id draw⟩

/-- `WellMixedTopology` does not override `remove_node`, so removing a node
falls back to `Topology.remove_node` (modelled by `topology_remove_node`). -/
def wellmixed_remove_node (g : PyGraph) (id : ℤ) : Except SEEDSErr PyGraph :=
  topology_remove_node g id

/-- `Topology.node_distance` (seeds/Topology.py, lines 89-111): raises
`NonExistentNodeError` when either argument is not a node of the graph;
otherwise returns the Euclidean distance between the two nodes' coordinates.
The embedding returns the squared distance (through
`euclidean_distance_squared`); the source takes its square root, which does
not change the error behaviour the claims are about. -/
def node_distance (g : PyGraph) (periodic : Bool) (src dest : ℤ) :
    Except SEEDSErr (Option ℚ) :=
  if src ∉ g.nodes then Except.error (SEEDSErr.nonExistentNodeError src)
  else if dest ∉ g.nodes then Except.error (SEEDSErr.nonExistentNodeError dest)
  else
    Except.ok (euclidean_distance_squared
      [((g.coords.lookup src).getD (0, 0)).1,
        ((g.coords.lookup src).getD (0, 0)).2]
      [((g.coords.lookup dest).getD (0, 0)).1,
        ((g.coords.lookup dest).getD (0, 0)).2] periodic)

/-! ## seeds/plugins/topology/CartesianTopology.py : build_graph

The source computes `radius = sqrt(expected_neighbors / (size - 1.0) / pi)`
(a float, irrational as a real number), so the embedding is parametric in a
rational radius `r` (all comparisons `euclidean_distance < radius` are
embedded as squared comparisons against `rsq = r^2`, which is equivalent for
positive radii).  Coordinates (`random.random()` draws in `[0,1)`) are an
explicit input list.  The bin structure, candidate-bin ranges (including the
source's `range(y-y, y+1+1)`), processing order, the mutation of the bin
list during iteration, disconnected-node removal and the random fallback
edge are all modelled exactly. -/

/-- `int(ceil(1/radius))` (CartesianTopology.py, line 129). -/
def num_bins (r : ℚ) : ℕ := (Int.ceil (1 / r)).toNat

/-- `int(floor(coord/radius))` (lines 149-150): the bin index of a
coordinate. -/
def bin_coord (r : ℚ) (c : ℚ) : ℕ := (Int.floor (c / r)).toNat

/-- `CartesianTopology.within_range` (lines 191-208):
`euclidean_distance(node1, node2, periodic) < distance`, embedded as the
squared comparison. -/
def within_range (node1 node2 : ℚ × ℚ) (rsq : ℚ) (periodic : Bool) : Bool :=
  (euclidean_distance_squared [node1.1, node1.2] [node2.1, node2.2]
    periodic).getD 0 < rsq

/-- Reading `neighbor_bins[x][y]` from the nested bin lists. -/
def bin_read (bins : List (List (List ℕ))) (x y : ℕ) : List ℕ :=
  (bins.getD x []).getD y []

/-- Writing `neighbor_bins[x][y] = l`. -/
def bin_write (bins : List (List (List ℕ))) (x y : ℕ) (l : List ℕ) :
    List (List (List ℕ)) :=
  bins.set x ((bins.getD x []).set y l)

/-- `neighbor_bins[bin_x][bin_y].append(n)` (line 151) for one node. -/
def place_node (r : ℚ) (coords : List (ℚ × ℚ))
    (bins : List (List (List ℕ))) (n : ℕ) : List (List (List ℕ)) :=
  bin_write bins (bin_coord r (coords.getD n (0, 0)).1)
    (bin_coord r (coords.getD n (0, 0)).2)
    (bin_read bins (bin_coord r (coords.getD n (0, 0)).1)
      (bin_coord r (coords.getD n (0, 0)).2) ++ [n])

/-- The initial bin contents (lines 130-151): a `num_bins × num_bins` nested
list of empty bins, then each node appended to its coordinate bin in
increasing node order. -/
def init_bins (r : ℚ) (coords : List (ℚ × ℚ)) (B : ℕ) :
    List (List (List ℕ)) :=
  (List.range coords.length).foldl (place_node r coords)
    (List.replicate B (List.replicate B []))

/-- The candidate x-bins `range(x-1, x+1+1)` with the non-periodic
out-of-bounds skip (lines 159-162). -/
def px_list (x : ℕ) (B : ℕ) (periodic : Bool) : List ℤ :=
  ([(x : ℤ) - 1, (x : ℤ), (x : ℤ) + 1]).filter
    (fun px => periodic || decide (0 ≤ px ∧ px < (B : ℤ)))

/-- The candidate y-bins `range(y-y, y+1+1)` — i.e. `0, 1, ..., y+1`, the
source's `y-y` lower bound — with the non-periodic out-of-bounds skip
(lines 164-167; the `py < 0` check is vacuous as the range starts at 0). -/
def py_list (y : ℕ) (B : ℕ) (periodic : Bool) : List ℕ :=
  (List.range (y + 2)).filter (fun py => periodic || decide (py < B))

/-- The `potentials` list for bin `(x, y)` (lines 157-169): concatenation of
the current candidate bins, wrapped modulo `num_bins`. -/
def potentials_at (bins : List (List (List ℕ))) (B : ℕ) (periodic : Bool)
    (x y : ℕ) : List ℕ :=
  (px_list x B periodic).flatMap (fun px =>
    (py_list y B periodic).flatMap (fun py =>
      bin_read bins (px.emod (B : ℤ)).toNat (py % B)))

/-- Undirected edge membership in the edge list. -/
def hasEdge (edges : List (ℕ × ℕ)) (a b : ℕ) : Bool :=
  edges.any (fun e => (e.1 = a ∧ e.2 = b) ∨ (e.1 = b ∧ e.2 = a))

/-- `G.add_edge` on the edge list (idempotent, as in networkx). -/
def addEdge (edges : List (ℕ × ℕ)) (a b : ℕ) : List (ℕ × ℕ) :=
  if hasEdge edges a b then edges else edges ++ [(a, b)]

/-- `G.degree(node) == 0`: no incident edge. -/
def degree0 (edges : List (ℕ × ℕ)) (n : ℕ) : Bool :=
  edges.all (fun e => ¬(e.1 = n ∨ e.2 = n))

/-- The inner scan of one node against the (fixed) potentials list
(lines 171-178): add an edge for every distinct potential within range. -/
def scan_node (coords : List (ℚ × ℚ)) (rsq : ℚ) (periodic : Bool)
    (pots : List ℕ) (edges : List (ℕ × ℕ)) (node : ℕ) : List (ℕ × ℕ) :=
  pots.foldl (fun es potential =>
    if within_range (coords.getD node (0, 0)) (coords.getD potential (0, 0))
        rsq periodic = true ∧ node ≠ potential
    then addEdge es node potential else es) edges

/-- The `for node in neighbor_bins[x][y]` loop (lines 171-186), with
Python's mutation-during-iteration semantics: the loop keeps an index into
the (possibly shrinking) list; `lst.remove(node)` on the current element
makes the iterator skip the next one.  State: the bin list, the loop index,
the edge list and the graph's node list.  A disconnected node is removed
from the graph and from the bin (`remove_disconnected`), or else connected
to the `rchoice`-chosen potential. -/
def node_loop (coords : List (ℚ × ℚ)) (rsq : ℚ) (periodic removeDisc : Bool)
    (rchoice : List ℕ → ℕ) (pots : List ℕ) (lst : List ℕ) (i : ℕ)
    (edges : List (ℕ × ℕ)) (nodes : List ℕ) :
    List ℕ × List (ℕ × ℕ) × List ℕ :=
  if i < lst.length then
    let node := lst.getD i 0
    let es2 := scan_node coords rsq periodic pots edges node
    if degree0 es2 node then
      if removeDisc then
        node_loop coords rsq periodic removeDisc rchoice pots
          (lst.erase node) (i + 1) es2 (nodes.filter (fun m => m ≠ node))
      else
        node_loop coords rsq periodic removeDisc rchoice pots
          lst (i + 1) (addEdge es2 node (rchoice pots)) nodes
    else
      node_loop coords rsq periodic removeDisc rchoice pots
        lst (i + 1) es2 nodes
  else (lst, edges, nodes)
termination_by lst.length - i
decreasing_by
  all_goals
    have hle := (List.erase_sublist (lst.getD i 0) lst).length_le
    omega

/-- The graph-construction state: the bins, the edge list, and the node
list. -/
structure CartState where
  bins : List (List (List ℕ))
  edges : List (ℕ × ℕ)
  nodes : List ℕ
deriving DecidableEq

/-- Processing of one bin `(x, y)` (lines 154-187): compute the potentials
once, run the node loop, and empty the bin.  (The node loop's intermediate
removals from the bin are not written back: the bin is emptied right after
the loop, and no other bin is read while it runs.) -/
def process_bin (coords : List (ℚ × ℚ)) (rsq : ℚ) (B : ℕ)
    (periodic removeDisc : Bool) (rchoice : List ℕ → ℕ) (st : CartState)
    (xy : ℕ × ℕ) : CartState :=
  let pots := potentials_at st.bins B periodic xy.1 xy.2
  let res := node_loop coords rsq periodic removeDisc rchoice pots
    (bin_read st.bins xy.1 xy.2) 0 st.edges st.nodes
  { bins := bin_write st.bins xy.1 xy.2 [],
    edges := res.2.1,
    nodes := res.2.2 }

/-- The lexicographic bin enumeration `for x in range(num_bins): for y in
range(num_bins)` (lines 154-155). -/
def lexBins (B : ℕ) : List (ℕ × ℕ) :=
  (List.range B).flatMap (fun x => (List.range B).map (fun y => (x, y)))

/-- `CartesianTopology.build_graph` (lines 106-189), parametric in the
rational radius `r` (the source's `sqrt(expected_neighbors/(size-1)/pi)`)
and the node coordinates: bins the nodes, then for each bin in lexicographic
order connects its nodes to the within-range candidates from the
3×(y+2)-block of current bins, removing (or randomly connecting)
disconnected nodes, and emptying each bin after processing.  Returns the
final (nodes, edges). -/
def build_graph (r : ℚ) (coords : List (ℚ × ℚ)) (periodic removeDisc : Bool)
    (rchoice : List ℕ → ℕ) : List ℕ × List (ℕ × ℕ) :=
  let B := num_bins r
  let stf := (lexBins B).foldl
    (process_bin coords (r ^ 2) B periodic removeDisc rchoice)
    { bins := init_bins r coords B, edges := [],
      nodes := List.range coords.length }
  (stf.nodes, stf.edges)

/-- An RPS cell: its population-wide cell id, the topology node it occupies,
and its type (`ROCK = 0`, `PAPER = 1`, `SCISSORS = 2`). -/
structure RPSCell where
  id : ℕ
  node : ℕ
  type : ℕ
deriving DecidableEq

/-- `RPSCell.update` (seeds/plugins/cell/RPSCell.py, lines 88-133), default
(non-distance-dependent) competitor selection: the competitor is the
neighbor picked by the `random.choice` index.  When the focal cell loses
(cyclic dominance), its type becomes the competitor's type, the change is
reported, and `self.id` is reassigned the next value of the population's
cell-id counter.  With no neighbors a warning is printed and nothing
changes.  Returns (updated cell, updated counter, events). -/
def rps_update (c : RPSCell) (counter : ℕ) (nbrTypes : List ℕ) (choice : ℕ) :
    RPSCell × ℕ × List (ℕ × ℕ) :=
  if nbrTypes.length < 1 then (c, counter, [])
  else
    if c.type = 0 ∧ nbrTypes.getD (choice % nbrTypes.length) 0 = 1 then
      ({ c with type := 1, id := counter }, counter + 1, [(0, 1)])
    else if c.type = 1 ∧ nbrTypes.getD (choice % nbrTypes.length) 0 = 2 then
      ({ c with type := 2, id := counter }, counter + 1, [(1, 2)])
    else if c.type = 2 ∧ nbrTypes.getD (choice % nbrTypes.length) 0 = 0 then
      ({ c with type := 0, id := counter }, counter + 1, [(2, 0)])
    else (c, counter, [])

/-- `Population.cell_distance` (seeds/Population.py, lines 193-205): passes
the two cells' `id` fields — not their `node` fields — to
`Topology.node_distance`. -/
def cell_distance (g : PyGraph) (periodic : Bool) (src dest : RPSCell) :
    Except SEEDSErr (Option ℚ) :=
  node_distance g periodic (src.id : ℤ) (dest.id : ℤ)

/-- `Cell.get_neighbor_distances` (seeds/Cell.py, lines 148-151): the list of
distances to all neighbors; the first raised exception aborts the list
comprehension (modelled by `mapM` over `Except`). -/
def get_neighbor_distances (g : PyGraph) (periodic : Bool) (c : RPSCell)
    (nbrs : List RPSCell) : Except SEEDSErr (List (Option ℚ)) :=
  nbrs.mapM (fun n => cell_distance g periodic c n)

/-- The number of cells whose type differs between two snapshots of the
population (the brute-force measure used by the claim). -/
def changedCount (a b : List ℕ) : ℕ :=
  ((a.zip b).filter (fun c => c.1 ≠ c.2)).length

/-- Edge-list soundness for the Cartesian construction: every edge joins
two distinct node ids whose coordinates are within range of each other. -/
def soundEdges (coords : List (ℚ × ℚ)) (rsq : ℚ) (periodic : Bool)
    (edges : List (ℕ × ℕ)) : Prop :=
  ∀ e ∈ edges, e.1 ≠ e.2 ∧
    within_range (coords.getD e.1 (0, 0)) (coords.getD e.2 (0, 0)) rsq
      periodic = true

/-! # Theorems -/

/-! ## List helper lemmas for the census bookkeeping -/

theorem tcVal_set (tc : List ℤ) (f : ℕ) (v : ℤ) (u : ℕ) (h : f < tc.length) :
    tcVal (tc.set f v) u = if u = f then v else tcVal tc u := by
  induction tc generalizing f u with
  | nil => simp at h
  | cons c cs ih =>
    cases f with
    | zero =>
      cases u with
      | zero => simp [tcVal]
      | succ u => simp [tcVal, List.set]
    | succ f =>
      cases u with
      | zero => simp [tcVal, List.set]
      | succ u =>
        simp only [List.set, tcVal, List.getD, List.get?_cons_succ]
        have := ih f u (by simpa using h)
        simp [tcVal, Nat.succ_inj] at this ⊢
        exact this

theorem tcVal_append_zeros (tc : List ℤ) (k : ℕ) (u : ℕ) :
    tcVal (tc ++ List.replicate k 0) u = tcVal tc u := by
  induction tc generalizing u with
  | nil =>
    simp only [List.nil_append, tcVal, List.getD]
    induction k generalizing u with
    | zero => simp
    | succ k ih =>
      cases u with
      | zero => simp [List.replicate]
      | succ u =>
        have := ih u
        simp only [List.replicate, List.getD, List.get?_cons_succ]
        exact this
  | cons c cs ih =>
    cases u with
    | zero => simp [tcVal]
    | succ u => simpa [tcVal] using ih u

theorem sum_set (tc : List ℤ) (f : ℕ) (v : ℤ) (h : f < tc.length) :
    (tc.set f v).sum = tc.sum + v - tcVal tc f := by
  induction tc generalizing f with
  | nil => simp at h
  | cons c cs ih =>
    cases f with
    | zero => simp [tcVal]; ring
    | succ f =>
      simp only [List.set, List.sum_cons]
      have := ih f (by simpa using h)
      rw [this]
      simp [tcVal]
      ring

theorem tcVal_increment (tc : List ℤ) (t : ℕ) (u : ℕ) :
    tcVal (increment_type_count tc t) u =
      tcVal tc u + (if u = t then 1 else 0) := by
  unfold increment_type_count
  by_cases hle : tc.length ≤ t
  · simp only [hle, if_true]
    have hlen : t < (tc ++ List.replicate (1 + t - tc.length) 0).length := by
      simp only [List.length_append, List.length_replicate]
      omega
    rw [tcVal_set _ _ _ _ hlen, tcVal_append_zeros]
    by_cases hu : u = t
    · subst hu
      simp only [if_pos rfl]
      have h0 : tcVal (tc ++ List.replicate (1 + u - tc.length) 0) u =
          tcVal tc u := tcVal_append_zeros tc _ u
      calc (tc ++ List.replicate (1 + u - tc.length) 0).getD u 0 + 1
          = tcVal tc u + 1 := by rw [← h0]; rfl
        _ = tcVal tc u + (1 : ℤ) := rfl
    · simp [hu]
  · simp only [hle, if_false]
    have hlt : t < tc.length := by omega
    rw [tcVal_set _ _ _ _ hlt]
    by_cases hu : u = t
    · subst hu
      simp only [if_pos rfl]
      rfl
    · simp [hu]

theorem sum_increment (tc : List ℤ) (t : ℕ) :
    (increment_type_count tc t).sum = tc.sum + 1 := by
  unfold increment_type_count
  by_cases hle : tc.length ≤ t
  · simp only [hle, if_true]
    have hlen : t < (tc ++ List.replicate (1 + t - tc.length) 0).length := by
      simp only [List.length_append, List.length_replicate]
      omega
    rw [sum_set _ _ _ hlen]
    have hz : (List.replicate (1 + t - tc.length) (0 : ℤ)).sum = 0 := by
      simp
    rw [List.sum_append, hz]
    simp [tcVal_append_zeros, tcVal]
    ring
  · simp only [hle, if_false]
    have hlt : t < tc.length := by omega
    rw [sum_set _ _ _ hlt]
    simp [tcVal]
    ring

theorem decrement_some (tc : List ℤ) (f : ℕ) (tc1 : List ℤ)
    (h : decrement_type_count tc f = some tc1) :
    f < tc.length ∧ tc1 = tc.set f (tcVal tc f - 1) := by
  unfold decrement_type_count at h
  by_cases hf : f < tc.length
  · simp only [hf, if_true, Option.some_inj] at h
    exact ⟨hf, h.symm⟩
  · simp [hf] at h

theorem countEq_set (cells : List ℕ) (i : ℕ) (t : ℕ) (u : ℕ)
    (h : i < cells.length) :
    (countEq (cells.set i t) u : ℤ) =
      (countEq cells u : ℤ) + (if t = u then 1 else 0) -
        (if cells.getD i 0 = u then 1 else 0) := by
  induction cells generalizing i with
  | nil => simp at h
  | cons c cs ih =>
    cases i with
    | zero =>
      have hg : (c :: cs).getD 0 0 = c := rfl
      simp only [List.set, countEq, hg]
      push_cast
      ring
    | succ i =>
      have hg : (c :: cs).getD (i + 1) 0 = cs.getD i 0 := rfl
      simp only [List.set, countEq, hg]
      have := ih i (by simpa using h)
      push_cast
      push_cast at this
      rw [this]
      ring

theorem tcVal_foldl_increment (cells : List ℕ) :
    ∀ (tc : List ℤ) (u : ℕ),
      tcVal (cells.foldl increment_type_count tc) u =
        tcVal tc u + (countEq cells u : ℤ) := by
  induction cells with
  | nil => simp [countEq]
  | cons c cs ih =>
    intro tc u
    simp only [List.foldl_cons, countEq]
    rw [ih, tcVal_increment]
    push_cast
    by_cases h : c = u
    · subst h
      simp only [if_pos rfl]
      ring
    · rw [if_neg h, if_neg (fun hh => h hh.symm)]
      ring

theorem sum_foldl_increment (cells : List ℕ) :
    ∀ tc : List ℤ,
      (cells.foldl increment_type_count tc).sum =
        tc.sum + (cells.length : ℤ) := by
  induction cells with
  | nil => simp
  | cons c cs ih =>
    intro tc
    simp only [List.foldl_cons, List.length_cons]
    rw [ih, sum_increment]
    push_cast
    ring

theorem gol_update_event (selfT : ℕ) (nbrTypes : List ℕ) (newT f t : ℕ)
    (rest : List (ℕ × ℕ)) (w : Bool)
    (h : gol_update selfT nbrTypes = (newT, (f, t) :: rest, w)) :
    f = selfT ∧ newT = t ∧ f ≠ t := by
  unfold gol_update at h
  split_ifs at h with h1 h2 h3 h4 <;>
    simp only [Prod.mk.injEq, List.cons.injEq] at h
  · exact absurd h.2.1 (by simp)
  · obtain ⟨hn, ⟨⟨hf, ht⟩, -⟩, -⟩ := h
    exact ⟨by omega, by omega, by omega⟩
  · obtain ⟨hn, ⟨⟨hf, ht⟩, -⟩, -⟩ := h
    exact ⟨by omega, by omega, by omega⟩
  · obtain ⟨hn, ⟨⟨hf, ht⟩, -⟩, -⟩ := h
    exact ⟨by omega, by omega, by omega⟩
  · exact absurd h.2.1 (by simp)

theorem update_type_count_census (cells : List ℕ) (tc : List ℤ)
    (m : List (List ℤ)) (i f t : ℕ) (out : List ℤ × List (List ℤ))
    (hi : i < cells.length) (hf : cells.getD i 0 = f)
    (hinv : census_ok cells tc)
    (hupd : update_type_count tc m f t = some out) :
    census_ok (cells.set i t) out.1 := by
  unfold update_type_count at hupd
  obtain ⟨tc1, hdec, hrest⟩ := Option.bind_eq_some.mp hupd
  obtain ⟨m1, hadd, hout⟩ := Option.map_eq_some'.mp hrest
  obtain ⟨hflen, htc1⟩ := decrement_some tc f tc1 hdec
  subst htc1
  have hout1 : out.1 = increment_type_count (tc.set f (tcVal tc f - 1)) t := by
    rw [← hout]
  constructor
  · intro u
    rw [hout1, tcVal_increment, tcVal_set _ _ _ _ hflen]
    have hcs := countEq_set cells i t u hi
    rw [hf] at hcs
    rw [hcs]
    have h1 := hinv.1 u
    rcases eq_or_ne u f with rfl | hu1
    · rcases eq_or_ne u t with rfl | hu2
      · simp
        omega
      · rw [if_pos rfl, if_neg hu2, if_neg (Ne.symm hu2)]
        omega
    · rcases eq_or_ne u t with rfl | hu2
      · rw [if_neg hu1, if_pos rfl, if_neg (Ne.symm hu1)]
        omega
      · rw [if_neg hu1, if_neg hu2, if_neg (Ne.symm hu2), if_neg (Ne.symm hu1)]
        omega
  · rw [hout1, sum_increment, sum_set _ _ _ hflen]
    have hs := hinv.2
    have hv : tcVal (tc.set f (tcVal tc f - 1)) f = tcVal tc f - 1 := by
      rw [tcVal_set _ _ _ _ hflen]; simp
    simp only [List.length_set]
    omega

/-! ## Claim theorems: population census (C1) -/

/-- Claim C1: (a) after Population construction (each cell's constructor
increments its own type's count once, starting from the empty list), the
type-count list satisfies the census invariant: entry `t` equals the
brute-force scan count of type `t` and the entries sum to the number of
nodes; (b) the invariant is preserved by every Game-of-Life cell update
(which reports its type change through `update_type_count`); (c) every
successful `update_type_count(old, new)` call preserves the sum of
`type_count`. -/
theorem C1_census_invariant :
    (∀ cells : List ℕ, census_ok cells (construct_type_count cells)) ∧
    (∀ (cells : List ℕ) (tc : List ℤ) (m : List (List ℤ)) (i : ℕ)
        (nbrs : List ℕ) (out : List ℕ × List ℤ × List (List ℤ)),
        i < cells.length → census_ok cells tc →
        gol_population_step cells tc m i nbrs = some out →
        census_ok out.1 out.2.1) ∧
    (∀ (tc : List ℤ) (m : List (List ℤ)) (f t : ℕ)
        (out : List ℤ × List (List ℤ)),
        update_type_count tc m f t = some out → out.1.sum = tc.sum) := by
  refine ⟨?_, ?_, ?_⟩
  · intro cells
    constructor
    · intro t
      unfold construct_type_count
      rw [tcVal_foldl_increment]
      simp [tcVal]
    · unfold construct_type_count
      rw [sum_foldl_increment]
      simp
  · intro cells tc m i nbrs out hi hinv hstep
    unfold gol_population_step at hstep
    rcases hev : gol_update (cells.getD i 0)
        (nbrs.map (fun j => cells.getD j 0)) with ⟨newT, evs, w⟩
    rcases evs with _ | ⟨⟨f, t⟩, rest⟩
    · rw [hev] at hstep
      dsimp only at hstep
      simp only [Option.some_inj] at hstep
      rw [← hstep]
      exact hinv
    · rw [hev] at hstep
      dsimp only at hstep
      obtain ⟨p, hupd, hout⟩ := Option.map_eq_some'.mp hstep
      obtain ⟨hfeq, hteq, hne⟩ := gol_update_event _ _ _ _ _ _ _ hev
      have hcen := update_type_count_census cells tc m i f t p hi hfeq.symm
        hinv hupd
      rw [← hout]
      simpa [hteq] using hcen
  · intro tc m f t out hupd
    unfold update_type_count at hupd
    obtain ⟨tc1, hdec, hrest⟩ := Option.bind_eq_some.mp hupd
    obtain ⟨m1, hadd, hout⟩ := Option.map_eq_some'.mp hrest
    obtain ⟨hflen, htc1⟩ := decrement_some tc f tc1 hdec
    have hout1 : out.1 = increment_type_count tc1 t := by rw [← hout]
    rw [hout1, sum_increment, htc1, sum_set _ _ _ hflen]
    ring

/-- Witness for C1 at concrete inputs: a two-node all-Alive population whose
node 0 (one live neighbor, underpopulation) dies; the census invariant holds
before and after, and the update preserves the type-count sum. -/
theorem C1_census_invariant_witness :
    census_ok [0, 0] [2] ∧
    gol_population_step [0, 0] [2] [[0, 0], [0, 0]] 0 [1] =
      some ([1, 0], [1, 1], [[0, 1], [0, 0]]) ∧
    census_ok [1, 0] [1, 1] := by
  have hc : census_ok [0, 0] [2] := by
    constructor
    · intro t
      rcases t with _ | t
      · rfl
      · simp [tcVal, countEq, List.getD]
    · rfl
  have hstep : gol_population_step [0, 0] [2] [[0, 0], [0, 0]] 0 [1] =
      some ([1, 0], [1, 1], [[0, 1], [0, 0]]) := by
    decide
  refine ⟨hc, hstep, ?_⟩
  have := (C1_census_invariant.2.1) [0, 0] [2] [[0, 0], [0, 0]] 0 [1]
    ([1, 0], [1, 1], [[0, 1], [0, 0]]) (by decide) hc hstep
  exact this

/-! ## Transition-matrix bookkeeping lemmas (for C2) -/

theorem matSum_set (m : List (List ℤ)) (f : ℕ) (r : List ℤ)
    (h : f < m.length) :
    matSum (m.set f r) = matSum m + r.sum - (m.getD f []).sum := by
  induction m generalizing f with
  | nil => simp at h
  | cons row rows ih =>
    cases f with
    | zero =>
      have hg : (row :: rows).getD 0 [] = row := rfl
      simp only [List.set, matSum, List.map, List.sum_cons, hg]
      ring
    | succ f =>
      have hg : (row :: rows).getD (f + 1) [] = rows.getD f [] := rfl
      simp only [List.set, matSum, List.map, List.sum_cons, hg]
      have := ih f (by simpa using h)
      simp only [matSum] at this
      rw [this]
      ring

theorem add_transition_matSum (m : List (List ℤ)) (f t : ℕ)
    (m1 : List (List ℤ)) (h : add_transition m f t = some m1) :
    matSum m1 = matSum m + 1 := by
  unfold add_transition at h
  split_ifs at h with hf ht
  · simp only [Option.some_inj] at h
    subst h
    rw [matSum_set _ _ _ hf, sum_set _ _ _ ht]
    simp only [tcVal]
    ring

theorem update_type_count_matSum (tc : List ℤ) (m : List (List ℤ)) (f t : ℕ)
    (out : List ℤ × List (List ℤ)) (h : update_type_count tc m f t = some out) :
    matSum out.2 = matSum m + 1 := by
  unfold update_type_count at h
  obtain ⟨tc1, hdec, hrest⟩ := Option.bind_eq_some.mp h
  obtain ⟨m1, hadd, hout⟩ := Option.map_eq_some'.mp hrest
  have h2 : out.2 = m1 := by rw [← hout]
  rw [h2]
  exact add_transition_matSum m f t m1 hadd

theorem kerr_node_update_matSum (ds dr dp tp : ℚ) (nbrsOf : ℕ → List ℕ)
    (st : KerrState) (ev : ℕ × ℕ × ℚ) (st2 : KerrState)
    (h : kerr_node_update ds dr dp tp nbrsOf st ev = some st2)
    (hinv : matSum st.transitions = (st.nevents : ℤ)) :
    matSum st2.transitions = (st2.nevents : ℤ) := by
  unfold kerr_node_update at h
  rcases hk : kerr_update ds dr dp tp (st.cells.getD ev.1 0)
      ((nbrsOf ev.1).map (fun j => st.cells.getD j 0)) ev.2.1 ev.2.2 with
    _ | ⟨newT, evs⟩
  · rw [hk] at h; simp at h
  · rw [hk] at h
    rcases evs with _ | ⟨⟨f, t⟩, rest⟩
    · dsimp only at h
      simp only [Option.some_inj] at h
      rw [← h]
      exact hinv
    · dsimp only at h
      obtain ⟨p, hupd, hout⟩ := Option.map_eq_some'.mp h
      have hm := update_type_count_matSum st.tc st.transitions f t p hupd
      rw [← hout]
      simp only [hm, hinv]
      push_cast
      ring

theorem kerr_fold_matSum (ds dr dp tp : ℚ) (nbrsOf : ℕ → List ℕ) :
    ∀ (events : List (ℕ × ℕ × ℚ)) (st st2 : KerrState),
      events.foldlM (kerr_node_update ds dr dp tp nbrsOf) st = some st2 →
      matSum st.transitions = (st.nevents : ℤ) →
      matSum st2.transitions = (st2.nevents : ℤ) := by
  intro events
  induction events with
  | nil =>
    intro st st2 h hinv
    simp only [List.foldlM] at h
    cases h
    exact hinv
  | cons e es ih =>
    intro st st2 h hinv
    rw [List.foldlM_cons] at h
    obtain ⟨st1, h1, h2⟩ := Option.bind_eq_some.mp h
    exact ih st1 st2 h2
      (kerr_node_update_matSum ds dr dp tp nbrsOf st e st1 h1 hinv)

/-! ## Claim theorems: transition accounting (C2) -/

/-- Claim C2, corrected.  (a) `Population.update` resets the transitions
matrix before any cell update: the epoch's result does not depend on the
transitions matrix (or ghost event counter) it starts with; (b) with no cell
updates the transitions matrix is exactly the all-zero 4×4 matrix; (c) at the
end of any successful epoch the sum of all entries of `transitions` equals
the number of `update_type_count` calls made during the epoch (the ghost
`nevents` counter) — not the number of cells whose type differs between the
start and the end of the epoch, which the counterexample
refutes (an Empty Kerr07 cell that copies an Empty neighbor records a
transition without changing any type). -/
theorem C2_transitions_accounting (ds dr dp tp : ℚ) (nbrsOf : ℕ → List ℕ) :
    (∀ (cells : List ℕ) (tc : List ℤ) (m1 m2 : List (List ℤ)) (n1 n2 : ℕ)
        (events : List (ℕ × ℕ × ℚ)),
        kerr_epoch ds dr dp tp nbrsOf ⟨cells, tc, m1, n1⟩ events =
          kerr_epoch ds dr dp tp nbrsOf ⟨cells, tc, m2, n2⟩ events) ∧
    (∀ st : KerrState, kerr_epoch ds dr dp tp nbrsOf st [] =
        some { st with transitions := kerr_zero_transitions, nevents := 0 }) ∧
    (∀ (st : KerrState) (events : List (ℕ × ℕ × ℚ)) (st2 : KerrState),
        kerr_epoch ds dr dp tp nbrsOf st events = some st2 →
        matSum st2.transitions = (st2.nevents : ℤ)) := by
  refine ⟨fun cells tc m1 m2 n1 n2 events => rfl, fun st => rfl, ?_⟩
  intro st events st2 h
  unfold kerr_epoch at h
  exact kerr_fold_matSum ds dr dp tp nbrsOf events
    { st with transitions := kerr_zero_transitions, nevents := 0 } st2 h
    (by show matSum kerr_zero_transitions = ((0 : ℕ) : ℤ); decide)

/-- Witness for C2 (amended) at a concrete input: a two-node all-Empty
Kerr07 population; updating node 1 copies its (Empty) neighbor, records one
transition, and the final transitions sum equals the one recorded event. -/
theorem C2_transitions_accounting_witness :
    kerr_epoch 0 0 0 0 (fun i => if i = 0 then [1] else [0])
        ⟨[0, 0], [2, 0, 0, 0], [[3, 0, 0, 0], [0, 0, 0, 0], [0, 0, 0, 0],
          [0, 0, 0, 0]], 7⟩ [(1, 0, 0)] =
      some ⟨[0, 0], [2, 0, 0, 0], [[1, 0, 0, 0], [0, 0, 0, 0], [0, 0, 0, 0],
        [0, 0, 0, 0]], 1⟩ ∧
    matSum [[1, 0, 0, 0], [0, 0, 0, 0], [0, 0, 0, 0], [0, 0, 0, 0]] = (1 : ℤ) := by
  have h : kerr_epoch 0 0 0 0 (fun i => if i = 0 then [1] else [0])
      ⟨[0, 0], [2, 0, 0, 0], [[3, 0, 0, 0], [0, 0, 0, 0], [0, 0, 0, 0],
        [0, 0, 0, 0]], 7⟩ [(1, 0, 0)] =
      some ⟨[0, 0], [2, 0, 0, 0], [[1, 0, 0, 0], [0, 0, 0, 0], [0, 0, 0, 0],
        [0, 0, 0, 0]], 1⟩ := by decide
  refine ⟨h, ?_⟩
  have := (C2_transitions_accounting 0 0 0 0
      (fun i => if i = 0 then [1] else [0])).2.2 _ _ _ h
  simpa using this

/-- Counterexample for C2 as stated: one epoch of a two-node all-Empty
Kerr07 population with a single scheduled update of node 0.  The Empty cell
copies its Empty neighbor: no cell's type differs between the start and the
end of the epoch (changedCount = 0), yet the transitions matrix —
correctly reset at the start of the epoch, wiping the garbage start matrix —
sums to 1, because `update_type_count(EMPTY, EMPTY)` was recorded.  Hence
"sum of transitions = number of cells whose type differs" is false. -/
theorem C2_transitions_counterexample :
    kerr_epoch 0 0 0 0 (fun i => if i = 0 then [1] else [0])
        ⟨[0, 0], [2, 0, 0, 0], [[5, 0, 0, 0], [0, 0, 0, 0], [0, 0, 0, 0],
          [0, 0, 0, 0]], 7⟩ [(0, 0, 0)] =
      some ⟨[0, 0], [2, 0, 0, 0], [[1, 0, 0, 0], [0, 0, 0, 0], [0, 0, 0, 0],
        [0, 0, 0, 0]], 1⟩ ∧
    changedCount [0, 0] [0, 0] = 0 ∧
    matSum [[1, 0, 0, 0], [0, 0, 0, 0], [0, 0, 0, 0], [0, 0, 0, 0]] = (1 : ℤ) ∧
    (1 : ℤ) ≠ (changedCount [0, 0] [0, 0] : ℤ) := by
  refine ⟨by decide, by decide, by decide, by decide⟩

/-! ## Claim theorems: Game of Life rule (C8) -/

/-- Claim C8: the Game-of-Life transition rule.  With at least one neighbor:
an Alive cell (type 0) with fewer than 2 or more than 3 Alive neighbors
becomes Dead and reports the change via `update_type_count(ALIVE, DEAD)`;
a Dead cell (type 1) with exactly 3 Alive neighbors becomes Alive and reports
`update_type_count(DEAD, ALIVE)`; every other configuration leaves the type
unchanged and reports nothing.  With zero neighbors the update prints a
warning and returns with the state unchanged (the run is not aborted: the
embedding is a total function). -/
theorem C8_game_of_life_rule (selfT : ℕ) (nbrTypes : List ℕ) :
    (nbrTypes = [] → gol_update selfT nbrTypes = (selfT, [], true)) ∧
    (nbrTypes ≠ [] → (gol_update selfT nbrTypes).2.2 = false) ∧
    (nbrTypes ≠ [] → selfT = 0 →
      (countEq nbrTypes 0 < 2 ∨ 3 < countEq nbrTypes 0) →
      gol_update selfT nbrTypes = (1, [(0, 1)], false)) ∧
    (nbrTypes ≠ [] → selfT = 1 → countEq nbrTypes 0 = 3 →
      gol_update selfT nbrTypes = (0, [(1, 0)], false)) ∧
    (nbrTypes ≠ [] →
      ¬(selfT = 0 ∧ (countEq nbrTypes 0 < 2 ∨ 3 < countEq nbrTypes 0)) →
      ¬(selfT = 1 ∧ countEq nbrTypes 0 = 3) →
      gol_update selfT nbrTypes = (selfT, [], false)) := by
  by_cases hn : nbrTypes = []
  · subst hn
    refine ⟨fun _ => by simp [gol_update], ?_, ?_, ?_, ?_⟩ <;>
      (intro h; exact absurd rfl h)
  · have hlen : ¬nbrTypes.length < 1 := by
      rcases nbrTypes with _ | ⟨c, cs⟩
      · exact absurd rfl hn
      · simp
    refine ⟨fun h => absurd h hn, ?_, ?_, ?_, ?_⟩ <;> intro _
    · unfold gol_update
      rw [if_neg hlen]
      split_ifs <;> rfl
    · intro hs hcnt
      unfold gol_update
      rw [if_neg hlen]
      rcases hcnt with hlt | hgt
      · rw [if_pos ⟨hs, hlt⟩]
      · rw [if_neg (fun hh => by omega), if_pos ⟨hs, hgt⟩]
    · intro hs hcnt
      unfold gol_update
      rw [if_neg hlen]
      rw [if_neg (fun hh => by omega), if_neg (fun hh => by omega),
        if_pos ⟨hs, hcnt⟩]
    · intro h1 h2
      unfold gol_update
      rw [if_neg hlen]
      rw [if_neg (fun hh => h1 ⟨hh.1, Or.inl hh.2⟩),
        if_neg (fun hh => h1 ⟨hh.1, Or.inr hh.2⟩), if_neg h2]

/-- Witness for C8 at concrete inputs: an Alive cell with two Dead neighbors
dies of underpopulation; a cell with no neighbors is unchanged and warned. -/
theorem C8_game_of_life_rule_witness :
    gol_update 0 [1, 1] = (1, [(0, 1)], false) ∧
    gol_update 2 [] = (2, [], true) := by
  refine ⟨?_, ?_⟩
  · exact (C8_game_of_life_rule 0 [1, 1]).2.2.1 (by decide) rfl (by decide)
  · exact (C8_game_of_life_rule 2 []).1 rfl

/-! ## Quasispecies lemmas (for C9) -/

theorem mutate_go_zero (rnd : ℕ → ℚ) (h : ∀ i, 0 ≤ rnd i) :
    ∀ (g : List ℕ) (i0 : ℕ), mutate_go 0 rnd g i0 = g := by
  intro g
  induction g with
  | nil => intro i0; rfl
  | cons b rest ih =>
    intro i0
    unfold mutate_go
    rw [if_neg (not_lt.mpr (h i0)), ih (i0 + 1)]

theorem roulette_index_lt (r : ℚ) :
    ∀ (norm : List ℚ) (psum : ℚ) (i : ℕ),
      roulette_index norm r psum = some i → i < norm.length := by
  intro norm
  induction norm with
  | nil => intro psum i h; simp [roulette_index] at h
  | cons nf rest ih =>
    intro psum i h
    unfold roulette_index at h
    split_ifs at h with hc
    · simp only [Option.some_inj] at h
      rw [← h]
      simp
    · obtain ⟨j, hj, hi⟩ := Option.map_eq_some'.mp h
      have := ih (psum + nf) j hj
      rw [← hi]
      simpa using this

theorem getD_mem {α : Type} :
    ∀ (l : List α) (i : ℕ) (d : α), i < l.length → l.getD i d ∈ l := by
  intro l
  induction l with
  | nil => intro i d h; simp at h
  | cons a rest ih =>
    intro i d h
    cases i with
    | zero => simp [List.getD]
    | succ i =>
      have : rest.getD i d ∈ rest := ih i d (by simpa using h)
      simp only [List.getD, List.get?_cons_succ]
      right
      exact this

theorem getD_set_self {α : Type} :
    ∀ (l : List α) (i : ℕ) (v d : α), i < l.length →
      (l.set i v).getD i d = v := by
  intro l
  induction l with
  | nil => intro i v d h; simp at h
  | cons a rest ih =>
    intro i v d h
    cases i with
    | zero => rfl
    | succ i => exact ih i v d (by simpa using h)

theorem getD_set_ne {α : Type} :
    ∀ (l : List α) (i j : ℕ) (v d : α), j ≠ i →
      (l.set i v).getD j d = l.getD j d := by
  intro l
  induction l with
  | nil => intro i j v d h; simp
  | cons a rest ih =>
    intro i j v d h
    cases i with
    | zero =>
      cases j with
      | zero => exact absurd rfl h
      | succ j => rfl
    | succ i =>
      cases j with
      | zero => rfl
      | succ j => exact ih i j v d (by omega)

theorem choose_neighbor_mem (order : ℕ) (wideMax : ℚ)
    (orgs : List (ℕ × List ℕ)) (r : ℚ) (p : ℕ × List ℕ)
    (h : choose_neighbor order wideMax orgs r = some p) : p ∈ orgs := by
  unfold choose_neighbor at h
  split_ifs at h with hnil
  rcases hri : roulette_index
      ((orgs.map (fun o => get_fitness order wideMax o.2)).map
        (fun f => f / ((orgs.map (fun o => get_fitness order wideMax o.2)).sum
          + 1 / 10 ^ 7))) r 0 with _ | i
  · rw [hri] at h
    simp only [Option.some_inj] at h
    rw [← h]
    apply getD_mem
    have : 0 < orgs.length := by
      rcases orgs with _ | ⟨o, os⟩
      · exact absurd rfl hnil
      · simp
    omega
  · rw [hri] at h
    simp only [Option.some_inj] at h
    rw [← h]
    apply getD_mem
    have := roulette_index_lt r _ _ _ hri
    simpa using this

theorem quasi_pop_step_genotypes (death_rate : ℚ) (order : ℕ) (wideMax : ℚ)
    (nbrsOf : ℕ → List ℕ) (pop0 popc pop1 : List (ℕ × List ℕ))
    (ev : ℕ × ℚ × (ℕ → ℚ) × ℚ) (hrnd : ∀ i, 0 ≤ ev.2.2.1 i)
    (hstep : quasi_pop_step death_rate 0 order wideMax nbrsOf popc ev =
      some pop1)
    (hlen : popc.length = pop0.length)
    (hinv : ∀ j, j < popc.length → ∃ k, k < pop0.length ∧
      (popc.getD j (0, [])).2 = (pop0.getD k (0, [])).2) :
    pop1.length = pop0.length ∧ ∀ j, j < pop1.length → ∃ k, k < pop0.length ∧
      (pop1.getD j (0, [])).2 = (pop0.getD k (0, [])).2 := by
  unfold quasi_pop_step at hstep
  obtain ⟨r, hq, hpop1⟩ := Option.map_eq_some'.mp hstep
  have hlen1 : pop1.length = pop0.length := by
    rw [← hpop1]
    simpa using hlen
  refine ⟨hlen1, ?_⟩
  intro j hj
  by_cases hji : j = ev.1
  · subst hji
    have hjc : ev.1 < popc.length := by omega
    rw [← hpop1, getD_set_self popc ev.1 _ _ hjc]
    -- analyze the update
    unfold quasi_update at hq
    by_cases hT : (popc.getD ev.1 (0, [])).1 = 0
    · rw [if_pos hT] at hq
      obtain ⟨parent, hcn, hr⟩ := Option.map_eq_some'.mp hq
      by_cases hp : parent.1 ≠ 0
      · rw [if_pos hp] at hr
        have hmut : mutate 0 parent.2 ev.2.2.1 = parent.2 :=
          mutate_go_zero ev.2.2.1 hrnd parent.2 0
        have hmem := choose_neighbor_mem _ _ _ _ _ hcn
        obtain ⟨j0, hj0mem, hj0eq⟩ := List.mem_map.mp hmem
        by_cases hj0 : j0 < popc.length
        · obtain ⟨k, hk, hkeq⟩ := hinv j0 hj0
          refine ⟨k, hk, ?_⟩
          rw [← hr]
          simp only [hmut]
          rw [← hkeq, hj0eq]
        · have : popc.getD j0 (0, []) = (0, []) := by
            unfold List.getD
            rw [List.get?_eq_none.mpr (by omega)]
            rfl
          rw [this] at hj0eq
          rw [← hj0eq] at hp
          exact absurd rfl hp
      · rw [if_neg hp] at hr
        obtain ⟨k, hk, hkeq⟩ := hinv ev.1 hjc
        refine ⟨k, hk, ?_⟩
        rw [← hr]
        exact hkeq
    · rw [if_neg hT] at hq
      obtain ⟨k, hk, hkeq⟩ := hinv ev.1 hjc
      refine ⟨k, hk, ?_⟩
      split_ifs at hq <;>
        (simp only [Option.some_inj] at hq; rw [← hq]; exact hkeq)
  · rw [← hpop1, getD_set_ne popc ev.1 j _ _ hji]
    exact hinv j (by omega)

theorem quasi_run_genotypes (death_rate : ℚ) (order : ℕ) (wideMax : ℚ)
    (nbrsOf : ℕ → List ℕ) :
    ∀ (events : List (ℕ × ℚ × (ℕ → ℚ) × ℚ)) (pop0 popc pop2 : List (ℕ × List ℕ)),
      (∀ ev ∈ events, ∀ i, 0 ≤ ev.2.2.1 i) →
      events.foldlM (quasi_pop_step death_rate 0 order wideMax nbrsOf) popc =
        some pop2 →
      popc.length = pop0.length →
      (∀ j, j < popc.length → ∃ k, k < pop0.length ∧
        (popc.getD j (0, [])).2 = (pop0.getD k (0, [])).2) →
      pop2.length = pop0.length ∧ ∀ j, j < pop2.length → ∃ k, k < pop0.length ∧
        (pop2.getD j (0, [])).2 = (pop0.getD k (0, [])).2 := by
  intro events
  induction events with
  | nil =>
    intro pop0 popc pop2 hev h hlen hinv
    simp only [List.foldlM] at h
    cases h
    exact ⟨hlen, hinv⟩
  | cons e es ih =>
    intro pop0 popc pop2 hev h hlen hinv
    rw [List.foldlM_cons] at h
    obtain ⟨pop1, h1, h2⟩ := Option.bind_eq_some.mp h
    have hstep := quasi_pop_step_genotypes death_rate order wideMax nbrsOf
      pop0 popc pop1 e (hev e (by simp)) h1 hlen hinv
    exact ih pop0 pop1 pop2 (fun ev hm i => hev ev (by simp [hm]) i) h2
      hstep.1 hstep.2

/-! ## Claim theorems: zero-mutation genotype round-trip (C9) -/

/-- Claim C9: with `site_mut_rate = 0`, (a) `mutate` returns its input
genotype bit-for-bit for every genotype and every sequence of
`random.random()` draws (all draws are ≥ 0, so `random.random() < 0` never
holds); (b) consequently an Empty cell that reproduces (its chosen parent is
non-Empty) adopts exactly the parent's genotype; (c) across an arbitrary
sequence of scheduled updates (arbitrarily many epochs), every genotype in
the population is bit-for-bit one of the initial genotypes. -/
theorem C9_zero_mutation_roundtrip :
    (∀ (g : List ℕ) (rnd : ℕ → ℚ), (∀ i, 0 ≤ rnd i) → mutate 0 g rnd = g) ∧
    (∀ (death_rate : ℚ) (order : ℕ) (wideMax : ℚ) (selfG : List ℕ)
        (nbrs : List (ℕ × List ℕ)) (rc : ℚ) (rnd : ℕ → ℚ) (du : ℚ)
        (parent : ℕ × List ℕ),
        (∀ i, 0 ≤ rnd i) →
        choose_neighbor order wideMax nbrs rc = some parent →
        parent.1 ≠ 0 →
        quasi_update death_rate 0 order wideMax 0 selfG nbrs rc rnd du =
          some (parent.2.headD 0 + 1, parent.2, [(0, parent.2.headD 0 + 1)])) ∧
    (∀ (death_rate : ℚ) (order : ℕ) (wideMax : ℚ) (nbrsOf : ℕ → List ℕ)
        (pop pop2 : List (ℕ × List ℕ)) (events : List (ℕ × ℚ × (ℕ → ℚ) × ℚ)),
        (∀ ev ∈ events, ∀ i, 0 ≤ ev.2.2.1 i) →
        quasi_run death_rate 0 order wideMax nbrsOf pop events = some pop2 →
        ∀ j, j < pop2.length → ∃ k, k < pop.length ∧
          (pop2.getD j (0, [])).2 = (pop.getD k (0, [])).2) := by
  refine ⟨?_, ?_, ?_⟩
  · intro g rnd h
    exact mutate_go_zero rnd h g 0
  · intro death_rate order wideMax selfG nbrs rc rnd du parent hrnd hcn hp
    unfold quasi_update
    rw [if_pos rfl, hcn]
    have hmut : mutate 0 parent.2 rnd = parent.2 :=
      mutate_go_zero rnd hrnd parent.2 0
    simp [hp, hmut]
  · intro death_rate order wideMax nbrsOf pop pop2 events hev hrun
    unfold quasi_run at hrun
    exact (quasi_run_genotypes death_rate order wideMax nbrsOf events pop pop
      pop2 hev hrun rfl (fun j hj => ⟨j, hj, rfl⟩)).2

/-- Witness for C9 at concrete inputs: zero-rate mutation of a concrete
genotype is the identity; a concrete Empty cell copies its single
(Wide-type) neighbor's genotype exactly; and after a concrete one-event run
every genotype is one of the initial ones. -/
theorem C9_zero_mutation_roundtrip_witness :
    mutate 0 [1, 0, 1, 1] (fun _ => 0) = [1, 0, 1, 1] ∧
    quasi_update (1/2) 0 1 1 0 [] [(2, [1, 1])] 0 (fun _ => 0) 0 =
      some (2, [1, 1], [(0, 2)]) ∧
    (∃ k, k < ([(1, [0, 1])] : List (ℕ × List ℕ)).length ∧
      (([(1, [0, 1])] : List (ℕ × List ℕ)).getD 0 (0, [])).2 =
        (([(1, [0, 1])] : List (ℕ × List ℕ)).getD k (0, [])).2) := by
  have hcn : choose_neighbor 1 1 [(2, [1, 1])] 0 = some (2, [1, 1]) := by
    norm_num [choose_neighbor, roulette_index, get_fitness, countEq,
      List.getD]
  have hrun : quasi_run (1/2) 0 1 1 (fun _ => [0]) [(1, [0, 1])]
      [(0, 0, fun _ => 0, 1/2)] = some [(1, [0, 1])] := by
    norm_num [quasi_run, quasi_pop_step, quasi_update, List.foldlM,
      List.getD, List.set]
  refine ⟨?_, ?_, ?_⟩
  · exact C9_zero_mutation_roundtrip.1 [1, 0, 1, 1] (fun _ => 0)
      (fun i => le_refl 0)
  · have := C9_zero_mutation_roundtrip.2.1 (1/2) 1 1 [] [(2, [1, 1])] 0
      (fun _ => 0) 0 (2, [1, 1]) (fun i => le_refl 0) hcn (by decide)
    simpa using this
  · have := C9_zero_mutation_roundtrip.2.2 (1/2) 1 1 (fun _ => [0])
      [(1, [0, 1])] [(1, [0, 1])] [(0, 0, fun _ => 0, 1/2)]
      (by intro ev hm i; simp at hm; subst hm; exact le_refl 0) hrun 0
      (by decide)
    exact this

/-! ## Claim theorems: Cartesian random-geometric construction (C6) -/

/-- Counterexample for C6 as stated (the bin-based construction produces an
edge iff the Euclidean distance is below the radius, "including pairs across
the periodic boundary").  Two concrete runs with radius 2/5 (3×3 bins)
refute it.  Periodic: nodes at (0.3, 0.03) and (0.3, 0.97) are within
wrapped distance 0.06 < 2/5, yet the construction yields no edge (both nodes
are even dropped as "disconnected"): the candidate y-bins are
`range(y-y, y+2) = 0..y+1`, which for bin row 0 omits the wrapped row
`num_bins - 1`, and by the time row 2 is processed row 0 has been emptied.
Non-periodic: nodes 1 at (0.3, 0.3) and 2 at (0.3, 0.41) are within
distance 0.11 < 2/5, yet the result is node set [1] with no edges: node 0 is
isolated and removed mid-iteration, which (Python list mutation during
iteration) skips node 1's scan in that bin, and node 2 later finds bin (0,0)
already emptied and is itself dropped. -/
theorem C6_bin_construction_counterexample :
    build_graph (2/5) [(3/10, 3/100), (3/10, 97/100)] true true (fun _ => 0) =
      ([], []) ∧
    within_range (3/10, 3/100) (3/10, 97/100) ((2/5)^2) true = true ∧
    build_graph (2/5) [(3/1000, 3/1000), (3/10, 3/10), (3/10, 41/100)] false
      true (fun _ => 0) = ([1], []) ∧
    within_range (3/10, 3/10) (3/10, 41/100) ((2/5)^2) false = true := by
  have hwaa : within_range (3/10, 3/100) (3/10, 3/100) (((2:ℚ)/5)^2) true =
      true := by
    norm_num [within_range, euclidean_distance_squared, minkowski_distance_p]
  have hwbb : within_range (3/10, 97/100) (3/10, 97/100) (((2:ℚ)/5)^2) true =
      true := by
    norm_num [within_range, euclidean_distance_squared, minkowski_distance_p]
  have hwdd : within_range (3/1000, 3/1000) (3/1000, 3/1000) (((2:ℚ)/5)^2)
      false = true := by
    norm_num [within_range, euclidean_distance_squared, minkowski_distance_p]
  have hwde : within_range (3/1000, 3/1000) (3/10, 3/10) (((2:ℚ)/5)^2) false =
      false := by
    norm_num [within_range, euclidean_distance_squared, minkowski_distance_p,
      decide_eq_false_iff_not]
  have hwdf : within_range (3/1000, 3/1000) (3/10, 41/100) (((2:ℚ)/5)^2)
      false = false := by
    norm_num [within_range, euclidean_distance_squared, minkowski_distance_p,
      decide_eq_false_iff_not]
  have hwff : within_range (3/10, 41/100) (3/10, 41/100) (((2:ℚ)/5)^2) false =
      true := by
    norm_num [within_range, euclidean_distance_squared, minkowski_distance_p]
  have hB : num_bins (2/5) = 3 := by
    have hc : ⌈(5:ℚ)/2⌉ = (3:ℤ) := by
      rw [Int.ceil_eq_iff]
      norm_num
    norm_num [num_bins, hc, Int.toNat_ofNat]
    rfl
  have hbc1 : bin_coord (2/5) (3/10) = 0 := by
    norm_num [bin_coord, Int.toNat_ofNat]
  have hbc2 : bin_coord (2/5) (3/100) = 0 := by
    norm_num [bin_coord, Int.toNat_ofNat]
  have hbc3 : bin_coord (2/5) (97/100) = 2 := by
    norm_num [bin_coord, Int.toNat_ofNat]
    rfl
  have hbc4 : bin_coord (2/5) (3/1000) = 0 := by
    norm_num [bin_coord, Int.toNat_ofNat]
  have hbc5 : bin_coord (2/5) (41/100) = 1 := by
    norm_num [bin_coord, Int.toNat_ofNat]
  have hinitP : init_bins (2/5) [(3/10, 3/100), (3/10, 97/100)] 3 =
      [[[0], [], [1]], [[], [], []], [[], [], []]] := by
    simp +decide [init_bins, place_node, bin_read, bin_write, List.range,
      List.range.loop, List.getD, hbc1, hbc2, hbc3]
  have hinitN : init_bins (2/5)
      [(3/1000, 3/1000), (3/10, 3/10), (3/10, 41/100)] 3 =
      [[[0, 1], [2], []], [[], [], []], [[], [], []]] := by
    simp +decide [init_bins, place_node, bin_read, bin_write, List.range,
      List.range.loop, List.getD, hbc1, hbc4, hbc5]
  have h1 : process_bin [(3/10, 3/100), (3/10, 97/100)] ((2/5)^2) 3 true true
      (fun _ => 0)
      { bins := [[[0], [], [1]], [[], [], []], [[], [], []]], edges := [],
        nodes := [0, 1] } (0, 0) =
      { bins := [[[], [], [1]], [[], [], []], [[], [], []]], edges := [],
        nodes := [1] } := by
    simp +decide [process_bin, node_loop, potentials_at, px_list, py_list,
      bin_read, bin_write, scan_node, addEdge, hasEdge, degree0, hwaa,
      Int.emod, List.getD, List.range, List.range.loop, Int.subNatNat]
  have h2 : process_bin [(3/10, 3/100), (3/10, 97/100)] ((2/5)^2) 3 true true
      (fun _ => 0)
      { bins := [[[], [], [1]], [[], [], []], [[], [], []]], edges := [],
        nodes := [1] } (0, 1) =
      { bins := [[[], [], [1]], [[], [], []], [[], [], []]], edges := [],
        nodes := [1] } := by
    simp +decide [process_bin, node_loop, potentials_at, px_list, py_list,
      bin_read, bin_write, Int.emod, List.getD, List.range, List.range.loop,
      Int.subNatNat]
  have h3 : process_bin [(3/10, 3/100), (3/10, 97/100)] ((2/5)^2) 3 true true
      (fun _ => 0)
      { bins := [[[], [], [1]], [[], [], []], [[], [], []]], edges := [],
        nodes := [1] } (0, 2) =
      { bins := [[[], [], []], [[], [], []], [[], [], []]], edges := [],
        nodes := [] } := by
    simp +decide [process_bin, node_loop, potentials_at, px_list, py_list,
      bin_read, bin_write, scan_node, addEdge, hasEdge, degree0, hwbb,
      Int.emod, List.getD, List.range, List.range.loop, Int.subNatNat]
  have hlex : lexBins 3 =
      [(0,0), (0,1), (0,2), (1,0), (1,1), (1,2), (2,0), (2,1), (2,2)] := by
    decide
  have hA : build_graph (2/5) [(3/10, 3/100), (3/10, 97/100)] true true
      (fun _ => 0) = ([], []) := by
    unfold build_graph
    simp only []
    rw [hB, hinitP, hlex]
    simp only [List.foldl_cons, List.foldl_nil]
    rw [show List.range
        ([(3/10, 3/100), (3/10, 97/100)] : List (ℚ × ℚ)).length = [0, 1]
        from rfl]
    rw [h1, h2, h3]
    simp +decide [process_bin, node_loop, potentials_at, px_list, py_list,
      bin_read, bin_write, Int.emod, List.getD, List.range, List.range.loop,
      Int.subNatNat]
  have hN1 : process_bin [(3/1000, 3/1000), (3/10, 3/10), (3/10, 41/100)]
      ((2/5)^2) 3 false true (fun _ => 0)
      { bins := [[[0, 1], [2], []], [[], [], []], [[], [], []]], edges := [],
        nodes := [0, 1, 2] } (0, 0) =
      { bins := [[[], [2], []], [[], [], []], [[], [], []]], edges := [],
        nodes := [1, 2] } := by
    simp +decide [process_bin, node_loop, potentials_at, px_list, py_list,
      bin_read, bin_write, scan_node, addEdge, hasEdge, degree0, hwdd, hwde,
      hwdf, Int.emod, List.getD, List.range, List.range.loop, Int.subNatNat,
      List.erase]
  have hN2 : process_bin [(3/1000, 3/1000), (3/10, 3/10), (3/10, 41/100)]
      ((2/5)^2) 3 false true (fun _ => 0)
      { bins := [[[], [2], []], [[], [], []], [[], [], []]], edges := [],
        nodes := [1, 2] } (0, 1) =
      { bins := [[[], [], []], [[], [], []], [[], [], []]], edges := [],
        nodes := [1] } := by
    simp +decide [process_bin, node_loop, potentials_at, px_list, py_list,
      bin_read, bin_write, scan_node, addEdge, hasEdge, degree0, hwff,
      Int.emod, List.getD, List.range, List.range.loop, Int.subNatNat,
      List.erase]
  have hC : build_graph (2/5)
      [(3/1000, 3/1000), (3/10, 3/10), (3/10, 41/100)] false true
      (fun _ => 0) = ([1], []) := by
    unfold build_graph
    simp only []
    rw [hB, hinitN, hlex]
    simp only [List.foldl_cons, List.foldl_nil]
    rw [show List.range
        ([(3/1000, 3/1000), (3/10, 3/10), (3/10, 41/100)]
          : List (ℚ × ℚ)).length = [0, 1, 2] from rfl]
    rw [hN1, hN2]
    simp +decide [process_bin, node_loop, potentials_at, px_list, py_list,
      bin_read, bin_write, Int.emod, List.getD, List.range, List.range.loop,
      Int.subNatNat]
  have hab1 : |(47:ℚ)/50| = 47/50 := abs_of_nonneg (by norm_num)
  have hab2 : |(1:ℚ) - 47/50| = 3/50 := by
    rw [show (1:ℚ) - 47/50 = 3/50 by norm_num]
    exact abs_of_nonneg (by norm_num)
  have hwab : within_range (3/10, 3/100) (3/10, 97/100) (((2:ℚ)/5)^2) true =
      true := by
    norm_num [within_range, euclidean_distance_squared, minkowski_distance_p]
    rw [hab1, hab2]
    rw [min_eq_right (by norm_num : (3:ℚ)/50 ≤ 47/50)]
    norm_num
  have hwef : within_range (3/10, 3/10) (3/10, 41/100) (((2:ℚ)/5)^2) false =
      true := by
    norm_num [within_range, euclidean_distance_squared, minkowski_distance_p]
  exact ⟨hA, hwab, hC, hwef⟩

/-- `G.add_edge` preserves edge soundness when the added pair is distinct
and within range. -/
theorem addEdge_sound (coords : List (ℚ × ℚ)) (rsq : ℚ) (per : Bool)
    (es : List (ℕ × ℕ)) (a b : ℕ) (hne : a ≠ b)
    (hw : within_range (coords.getD a (0, 0)) (coords.getD b (0, 0)) rsq
      per = true)
    (h : soundEdges coords rsq per es) :
    soundEdges coords rsq per (addEdge es a b) := by
  intro e hme
  unfold addEdge at hme
  by_cases hh : hasEdge es a b = true
  · rw [if_pos hh] at hme
    exact h e hme
  · rw [if_neg hh] at hme
    rcases List.mem_append.mp hme with h1 | h2
    · exact h e h1
    · rw [List.mem_singleton] at h2
      subst h2
      exact ⟨hne, hw⟩

/-- The inner potentials scan preserves edge soundness: it only adds edges
that pass the `within_range` and distinctness checks. -/
theorem scan_node_sound (coords : List (ℚ × ℚ)) (rsq : ℚ) (per : Bool)
    (node : ℕ) :
    ∀ (pots : List ℕ) (es : List (ℕ × ℕ)),
      soundEdges coords rsq per es →
      soundEdges coords rsq per (scan_node coords rsq per pots es node) := by
  intro pots
  induction pots with
  | nil =>
    intro es h
    exact h
  | cons p ps ih =>
    intro es h
    have hstep : scan_node coords rsq per (p :: ps) es node =
        scan_node coords rsq per ps
          (if within_range (coords.getD node (0, 0)) (coords.getD p (0, 0))
              rsq per = true ∧ node ≠ p
           then addEdge es node p else es) node := rfl
    rw [hstep]
    by_cases hc : within_range (coords.getD node (0, 0))
        (coords.getD p (0, 0)) rsq per = true ∧ node ≠ p
    · rw [if_pos hc]
      exact ih _ (addEdge_sound coords rsq per es node p hc.2 hc.1 h)
    · rw [if_neg hc]
      exact ih _ h

/-- The bin node loop preserves edge soundness when disconnected nodes are
removed (with `remove_disconnected` off, the random fallback edge need not
be within range). -/
theorem node_loop_sound (coords : List (ℚ × ℚ)) (rsq : ℚ) (per : Bool)
    (rchoice : List ℕ → ℕ) (pots : List ℕ) (lst : List ℕ) (i : ℕ)
    (edges : List (ℕ × ℕ)) (nodes : List ℕ)
    (h : soundEdges coords rsq per edges) :
    soundEdges coords rsq per
      (node_loop coords rsq per true rchoice pots lst i edges nodes).2.1 := by
  rw [node_loop]
  by_cases hi : i < lst.length
  · rw [if_pos hi]
    simp only []
    by_cases hd : degree0
        (scan_node coords rsq per pots edges (lst.getD i 0))
        (lst.getD i 0) = true
    · rw [if_pos hd]
      simp only [if_true]
      exact node_loop_sound coords rsq per rchoice pots
        (lst.erase (lst.getD i 0)) (i + 1)
        (scan_node coords rsq per pots edges (lst.getD i 0))
        (nodes.filter (fun m => m ≠ lst.getD i 0))
        (scan_node_sound coords rsq per (lst.getD i 0) pots edges h)
    · rw [if_neg hd]
      exact node_loop_sound coords rsq per rchoice pots lst (i + 1)
        (scan_node coords rsq per pots edges (lst.getD i 0)) nodes
        (scan_node_sound coords rsq per (lst.getD i 0) pots edges h)
  · rw [if_neg hi]
    exact h
termination_by lst.length - i
decreasing_by
  all_goals
    have hle := (List.erase_sublist (lst.getD i 0) lst).length_le
    omega

/-- Processing one bin preserves edge soundness. -/
theorem process_bin_sound (coords : List (ℚ × ℚ)) (rsq : ℚ) (B : ℕ)
    (per : Bool) (rchoice : List ℕ → ℕ) (st : CartState) (xy : ℕ × ℕ)
    (h : soundEdges coords rsq per st.edges) :
    soundEdges coords rsq per
      (process_bin coords rsq B per true rchoice st xy).edges := by
  unfold process_bin
  exact node_loop_sound coords rsq per rchoice
    (potentials_at st.bins B per xy.1 xy.2)
    (bin_read st.bins xy.1 xy.2) 0 st.edges st.nodes h

/-- Folding the bin processing over any bin list preserves edge
soundness. -/
theorem foldl_bins_sound (coords : List (ℚ × ℚ)) (rsq : ℚ) (B : ℕ)
    (per : Bool) (rchoice : List ℕ → ℕ) :
    ∀ (l : List (ℕ × ℕ)) (st : CartState),
      soundEdges coords rsq per st.edges →
      soundEdges coords rsq per
        ((l.foldl (process_bin coords rsq B per true rchoice) st).edges) := by
  intro l
  induction l with
  | nil =>
    intro st h
    exact h
  | cons a as ih =>
    intro st h
    rw [List.foldl_cons]
    exact ih _ (process_bin_sound coords rsq B per rchoice st a h)

/-- C6, amended: only the soundness half of the claimed equivalence holds.
With `remove_disconnected` enabled, every edge that
`CartesianTopology.build_graph` produces joins two distinct nodes whose
coordinates are within the connection radius (`within_range`, the squared
Euclidean comparison, periodic as configured).  The converse — an edge for
*every* within-range pair — is refuted by
the concrete runs above: the candidate y-bin range `range(y-y, y+1+1)`
scans rows `0..y+1` instead of `y-1..y+1`, so wrapped pairs across the
periodic boundary are missed (each bin being emptied after processing), and
removing a disconnected node from a bin mid-iteration skips the next node's
scan.  (With `remove_disconnected` off, the fallback edge to a random
potential need not be within range either.) -/
theorem C6_bin_edges_within_radius (r : ℚ) (coords : List (ℚ × ℚ))
    (periodic : Bool) (rchoice : List ℕ → ℕ) (e : ℕ × ℕ)
    (he : e ∈ (build_graph r coords periodic true rchoice).2) :
    e.1 ≠ e.2 ∧
    within_range (coords.getD e.1 (0, 0)) (coords.getD e.2 (0, 0)) (r ^ 2)
      periodic = true := by
  have hs : soundEdges coords (r ^ 2) periodic
      ((lexBins (num_bins r)).foldl
        (process_bin coords (r ^ 2) (num_bins r) periodic true rchoice)
        { bins := init_bins r coords (num_bins r), edges := [],
          nodes := List.range coords.length }).edges := by
    apply foldl_bins_sound
    intro x hx
    exact absurd hx (List.not_mem_nil x)
  exact hs e he

/-- Witness for C6: a concrete two-node run (radius 1, coordinates
(0.3, 0.3) and (0.3, 0.41), non-periodic, removing disconnected nodes)
produces the edge (0, 1), and that edge is between distinct within-range
nodes. -/
theorem C6_bin_edges_within_radius_witness :
    (0, 1) ∈ (build_graph 1 [(3/10, 3/10), (3/10, 41/100)] false true
      (fun _ => 0)).2 ∧
    ((0, 1) : ℕ × ℕ).1 ≠ ((0, 1) : ℕ × ℕ).2 ∧
    within_range (3/10, 3/10) (3/10, 41/100) ((1 : ℚ) ^ 2) false = true := by
  have hw01 : within_range (3/10, 3/10) (3/10, 41/100) (1 : ℚ) false =
      true := by
    norm_num [within_range, euclidean_distance_squared, minkowski_distance_p]
  have hw10 : within_range (3/10, 41/100) (3/10, 3/10) (1 : ℚ) false =
      true := by
    norm_num [within_range, euclidean_distance_squared, minkowski_distance_p]
  have hB1 : num_bins 1 = 1 := by
    norm_num [num_bins]
  have hbcw1 : bin_coord 1 (3/10) = 0 := by
    norm_num [bin_coord]
  have hbcw2 : bin_coord 1 (41/100) = 0 := by
    norm_num [bin_coord]
  have hinit : init_bins 1 [(3/10, 3/10), (3/10, 41/100)] 1 = [[[0, 1]]] := by
    simp +decide [init_bins, place_node, bin_read, bin_write, List.range,
      List.range.loop, List.getD, hbcw1, hbcw2]
  have hrun : build_graph 1 [(3/10, 3/10), (3/10, 41/100)] false true
      (fun _ => 0) = ([0, 1], [(0, 1)]) := by
    unfold build_graph
    simp only []
    rw [hB1, hinit]
    rw [show List.range
        ([(3/10, 3/10), (3/10, 41/100)] : List (ℚ × ℚ)).length = [0, 1]
        from rfl]
    rw [show lexBins 1 = [(0, 0)] from by decide]
    simp only [List.foldl_cons, List.foldl_nil]
    simp +decide [process_bin, node_loop, potentials_at, px_list, py_list,
      bin_read, bin_write, scan_node, addEdge, hasEdge, degree0, hw01, hw10,
      Int.emod, List.getD, List.range, List.range.loop, Int.subNatNat]
  have hmem : (0, 1) ∈ (build_graph 1 [(3/10, 3/10), (3/10, 41/100)] false
      true (fun _ => 0)).2 := by
    rw [hrun]
    simp
  exact ⟨hmem, C6_bin_edges_within_radius 1 [(3/10, 3/10), (3/10, 41/100)]
    false (fun _ => 0) (0, 1) hmem⟩

/-! ## Claim theorems: structural mutation rejection (C5) -/

/-- Claim C5, corrected.  The Moore, von Neumann and Cartesian topologies
reject all four structural-mutation operations with `ConfigurationError`
(producing no modified graph); the well-mixed topology rejects only
`add_edge` and `remove_edge`.  `WellMixedTopology.add_node` does not raise a
configuration error: with an explicit id it adds the node (with fresh random
coordinates) and succeeds, and with the default id `-1` it adds node `max+1`
and then raises `KeyError` while assigning the coordinates.
`WellMixedTopology` does not override `remove_node` at all, so removal falls
through to `Topology.remove_node`, which removes an existing node (and its
incident edges) and raises `NonExistentNodeError` — not
`ConfigurationError` — for a missing one. -/
theorem C5_structural_mutation_rejection (g : PyGraph) (id : ℤ)
    (nbrs : List ℤ) (src dest : ℤ) (draw : ℚ × ℚ) :
    (moore_add_node g id nbrs = Except.error SEEDSErr.configurationError ∧
     moore_remove_node g id = Except.error SEEDSErr.configurationError ∧
     moore_add_edge g src dest = Except.error SEEDSErr.configurationError ∧
     moore_remove_edge g src dest =
       Except.error SEEDSErr.configurationError) ∧
    (vonNeumann_add_node g id nbrs =
       Except.error SEEDSErr.configurationError ∧
     vonNeumann_remove_node g id = Except.error SEEDSErr.configurationError ∧
     vonNeumann_add_edge g src dest =
       Except.error SEEDSErr.configurationError ∧
     vonNeumann_remove_edge g src dest =
       Except.error SEEDSErr.configurationError) ∧
    (cartesian_add_node g id nbrs =
       Except.error SEEDSErr.configurationError ∧
     cartesian_remove_node g id = Except.error SEEDSErr.configurationError ∧
     cartesian_add_edge g src dest =
       Except.error SEEDSErr.configurationError ∧
     cartesian_remove_edge g src dest =
       Except.error SEEDSErr.configurationError) ∧
    (wellmixed_add_edge g src dest =
       Except.error SEEDSErr.configurationError ∧
     wellmixed_remove_edge g src dest =
       Except.error SEEDSErr.configurationError) ∧
    (id ≠ -1 → wellmixed_add_node g id draw =
       Except.ok ⟨if id ∈ g.nodes then g.nodes else g.nodes ++ [id], g.edges,
         assocSet g.coords id draw⟩) ∧
    (wellmixed_add_node g (-1) draw = Except.error SEEDSErr.keyError) ∧
    (id ∈ g.nodes → wellmixed_remove_node g id =
       Except.ok ⟨g.nodes.filter (fun n => n ≠ id),
         g.edges.filter (fun e => e.1 ≠ id ∧ e.2 ≠ id),
         g.coords.filter (fun p => p.1 ≠ id)⟩) ∧
    (id ∉ g.nodes → wellmixed_remove_node g id =
       Except.error (SEEDSErr.nonExistentNodeError id)) := by
  refine ⟨⟨rfl, rfl, rfl, rfl⟩, ⟨rfl, rfl, rfl, rfl⟩, ⟨rfl, rfl, rfl, rfl⟩,
    ⟨rfl, rfl⟩, ?_, ?_, ?_, ?_⟩
  · intro h
    unfold wellmixed_add_node
    rw [if_neg h]
  · rfl
  · intro h
    unfold wellmixed_remove_node topology_remove_node
    rw [if_pos h]
  · intro h
    unfold wellmixed_remove_node topology_remove_node
    rw [if_neg h]

/-- Witness for C5 (amended) at concrete inputs: a two-node well-mixed graph
accepts `add_node(id=5)` and `remove_node(0)`. -/
theorem C5_structural_mutation_rejection_witness :
    moore_add_node ⟨[0, 1], [], []⟩ 5 [] =
      Except.error SEEDSErr.configurationError ∧
    wellmixed_add_node ⟨[0, 1], [], []⟩ 5 (0, 0) =
      Except.ok ⟨[0, 1, 5], [], [(5, (0, 0))]⟩ ∧
    wellmixed_remove_node ⟨[0, 1], [], []⟩ 0 = Except.ok ⟨[1], [], []⟩ := by
  have h := C5_structural_mutation_rejection ⟨[0, 1], [], []⟩ 5 [] 0 0 (0, 0)
  refine ⟨h.1.1, ?_, ?_⟩
  · have h5 := h.2.2.2.2.1 (by decide)
    rw [h5]
    rfl
  · have h0 := C5_structural_mutation_rejection ⟨[0, 1], [], []⟩ 0 [] 0 0
      (0, 0)
    have hr := h0.2.2.2.2.2.2.1 (by decide)
    rw [hr]
    rfl

/-- Counterexample for C5 as stated: the claim says every well-mixed
topology instance raises `ConfigurationError` from `add_node` and
`remove_node` and leaves the graph unchanged.  On the concrete two-node
well-mixed graph, `add_node(id=5)` succeeds and returns a graph with the new
node 5 (no `ConfigurationError`), and `remove_node(0)` succeeds and returns
a graph without node 0. -/
theorem C5_wellmixed_mutation_counterexample :
    wellmixed_add_node ⟨[0, 1], [], []⟩ 5 (0, 0) =
      Except.ok ⟨[0, 1, 5], [], [(5, (0, 0))]⟩ ∧
    ([0, 1, 5] : List ℤ) ≠ [0, 1] ∧
    wellmixed_remove_node ⟨[0, 1], [], []⟩ 0 = Except.ok ⟨[1], [], []⟩ ∧
    ([1] : List ℤ) ≠ [0, 1] := by
  refine ⟨rfl, by decide, rfl, by decide⟩

/-! ## Claim theorems: RPS id reassignment and distance queries (C10) -/

/-- Claim C10: (a) `RPSCell.update` never changes the cell's `node`, and
whenever the type changes (a lost competition) the cell's `id` is reassigned
the next value of the population-wide cell-id counter; (b)
`Population.cell_distance` passes the cells' `id` fields to
`Topology.node_distance`, which raises `NonExistentNodeError` for a `src` or
`dest` id that is not a node of the graph; (c) hence for a cell whose id is
outside the node-id range `0..N-1`, `get_neighbor_distances` (used by
distance-dependent neighbor selection) raises `NonExistentNodeError`; (d) in
particular, after an update in which the cell loses a competition while the
counter is at least `N`, every subsequent neighbor-distance query for that
cell raises `NonExistentNodeError`. -/
theorem C10_rps_stale_id_distance :
    (∀ (c : RPSCell) (counter : ℕ) (nbrTypes : List ℕ) (choice : ℕ),
        (rps_update c counter nbrTypes choice).1.node = c.node ∧
        ((rps_update c counter nbrTypes choice).1.type ≠ c.type →
          (rps_update c counter nbrTypes choice).1.id = counter ∧
          (rps_update c counter nbrTypes choice).2.1 = counter + 1)) ∧
    (∀ (g : PyGraph) (periodic : Bool) (src dest : RPSCell),
        ((src.id : ℤ) ∉ g.nodes →
          cell_distance g periodic src dest =
            Except.error (SEEDSErr.nonExistentNodeError (src.id : ℤ))) ∧
        ((src.id : ℤ) ∈ g.nodes → (dest.id : ℤ) ∉ g.nodes →
          cell_distance g periodic src dest =
            Except.error (SEEDSErr.nonExistentNodeError (dest.id : ℤ)))) ∧
    (∀ (N : ℕ) (g : PyGraph) (periodic : Bool) (c : RPSCell) (n0 : RPSCell)
        (rest : List RPSCell),
        g.nodes = (List.range N).map Int.ofNat →
        N ≤ c.id →
        get_neighbor_distances g periodic c (n0 :: rest) =
          Except.error (SEEDSErr.nonExistentNodeError (c.id : ℤ))) ∧
    (∀ (N : ℕ) (g : PyGraph) (periodic : Bool) (c : RPSCell) (counter : ℕ)
        (nbrTypes : List ℕ) (choice : ℕ) (n0 : RPSCell)
        (rest : List RPSCell),
        g.nodes = (List.range N).map Int.ofNat →
        N ≤ counter →
        (rps_update c counter nbrTypes choice).1.type ≠ c.type →
        get_neighbor_distances g periodic
          (rps_update c counter nbrTypes choice).1 (n0 :: rest) =
          Except.error (SEEDSErr.nonExistentNodeError (counter : ℤ))) := by
  have hb : ∀ (g : PyGraph) (periodic : Bool) (src dest : RPSCell),
      (src.id : ℤ) ∉ g.nodes →
      cell_distance g periodic src dest =
        Except.error (SEEDSErr.nonExistentNodeError (src.id : ℤ)) := by
    intro g periodic src dest h
    unfold cell_distance node_distance
    rw [if_pos h]
  have hc : ∀ (N : ℕ) (g : PyGraph) (periodic : Bool) (c : RPSCell)
      (n0 : RPSCell) (rest : List RPSCell),
      g.nodes = (List.range N).map Int.ofNat → N ≤ c.id →
      get_neighbor_distances g periodic c (n0 :: rest) =
        Except.error (SEEDSErr.nonExistentNodeError (c.id : ℤ)) := by
    intro N g periodic c n0 rest hg hN
    have hnot : (c.id : ℤ) ∉ g.nodes := by
      rw [hg]
      intro hmem
      obtain ⟨a, hamem, hacast⟩ := List.mem_map.mp hmem
      have ha2 : a < N := List.mem_range.mp hamem
      have hac : (a : ℤ) = (c.id : ℤ) := hacast
      omega
    have h0 := hb g periodic c n0 hnot
    unfold get_neighbor_distances
    rw [List.mapM_cons, h0]
    rfl
  have ha : ∀ (c : RPSCell) (counter : ℕ) (nbrTypes : List ℕ) (choice : ℕ),
      (rps_update c counter nbrTypes choice).1.node = c.node ∧
      ((rps_update c counter nbrTypes choice).1.type ≠ c.type →
        (rps_update c counter nbrTypes choice).1.id = counter ∧
        (rps_update c counter nbrTypes choice).2.1 = counter + 1) := by
    intro c counter nbrTypes choice
    unfold rps_update
    split_ifs with h0 h1 h2 h3
    · exact ⟨rfl, fun h => absurd rfl h⟩
    · exact ⟨rfl, fun _ => ⟨rfl, rfl⟩⟩
    · exact ⟨rfl, fun _ => ⟨rfl, rfl⟩⟩
    · exact ⟨rfl, fun _ => ⟨rfl, rfl⟩⟩
    · exact ⟨rfl, fun h => absurd rfl h⟩
  refine ⟨ha, ?_, hc, ?_⟩
  · intro g periodic src dest
    refine ⟨hb g periodic src dest, ?_⟩
    intro h1 h2
    unfold cell_distance node_distance
    rw [if_neg (not_not_intro h1), if_pos h2]
  · intro N g periodic c counter nbrTypes choice n0 rest hg hN hchange
    have hid := ((ha c counter nbrTypes choice).2 hchange).1
    have := hc N g periodic (rps_update c counter nbrTypes choice).1 n0 rest
      hg (by omega)
    rw [hid] at this
    exact this

/-- Witness for C10 at concrete inputs: a Paper cell (id 1, node 1) loses to
a Scissors competitor with the counter at 4: it becomes Scissors with fresh
id 4, node unchanged; on the 4-node graph `0..3` its neighbor-distance query
then raises `NonExistentNodeError(4)`. -/
theorem C10_rps_stale_id_distance_witness :
    rps_update ⟨1, 1, 1⟩ 4 [2] 0 = (⟨4, 1, 2⟩, 5, [(1, 2)]) ∧
    get_neighbor_distances
        ⟨(List.range 4).map Int.ofNat, [], []⟩ false ⟨4, 1, 2⟩
        [⟨0, 0, 0⟩] =
      Except.error (SEEDSErr.nonExistentNodeError 4) := by
  refine ⟨by decide, ?_⟩
  have := C10_rps_stale_id_distance.2.2.1 4
    ⟨(List.range 4).map Int.ofNat, [], []⟩ false ⟨4, 1, 2⟩
    ⟨0, 0, 0⟩ [] rfl (by decide)
  exact this

/-! ## Claim theorems: geometry (C7) -/

/-- Claim C7: the claim asserts `distance(q1,q2) = distance(q2,q1)` for every
order `p ≥ 1` on the unit hypercube.  Evaluating the code at the failing
input `p = 1`, `q1 = (0.3, 0.3)`, `q2 = (0.5, 0.5)`, non-periodic:
`manhattan_distance(q1, q2) = -0.4` while `manhattan_distance(q2, q1) = 0.4`.
The non-periodic branch sums signed differences without `abs`, so for odd
orders the "distance" is asymmetric (and can be negative), contradicting the
claim and the function's own name and documentation. -/
theorem C7_manhattan_asymmetric :
    manhattan_distance [3/10, 3/10] [1/2, 1/2] false = some (-(2/5)) ∧
    manhattan_distance [1/2, 1/2] [3/10, 3/10] false = some (2/5) ∧
    manhattan_distance [3/10, 3/10] [1/2, 1/2] false ≠
      manhattan_distance [1/2, 1/2] [3/10, 3/10] false := by
  refine ⟨?_, ?_, ?_⟩ <;>
    norm_num [manhattan_distance, minkowski_distance_p, List.zip]

/-! ## Claim theorems: NormalResource (C3, C4) -/

/-- Claim C3: the claim describes the post-state of `NormalResource.update`
as the result of the inflow/decay step followed by the ordered diffusion
transfers, each decreasing the focal level.  Evaluating the code at the
failing input (inflow 0, decay 0, diffusion 1, focal level 10, one neighbor
at level 0): the code returns focal 10 and neighbor 10 — the final line of
`update` resets the focal level to its pre-diffusion value, discarding the
transfers' decrements — whereas the claimed (and spec-described) sequence
yields focal 0 and neighbor 10. -/
theorem C3_normal_update_resets_focal_level :
    normalResource_update 0 0 1 10 [0] = (10, [10]) ∧
    normalResource_update_specSequence 0 0 1 10 [0] = (0, [10]) ∧
    normalResource_update 0 0 1 10 [0] ≠
      normalResource_update_specSequence 0 0 1 10 [0] := by
  refine ⟨?_, ?_, ?_⟩ <;>
    norm_num [normalResource_update, normalResource_update_specSequence,
      sortAscLevel, insertAscLevel, diffusionStep, List.range,
      List.range.loop, List.filter]

/-- Claim C4: with inflow 0 and decay 0 a single update is claimed to leave
the total level of the focal cell plus neighbors unchanged.  Evaluating the
code at the failing input (diffusion 1, focal 10, one neighbor at 0): the
total before is 10, but after the update it is 20 — the neighbor received the
full transfer while the focal cell's level was reset to its pre-diffusion
value, so diffusion duplicates mass instead of conserving it. -/
theorem C4_normal_update_creates_mass :
    (10 : ℚ) + ([0] : List ℚ).sum = 10 ∧
    (normalResource_update 0 0 1 10 [0]).1 +
      (normalResource_update 0 0 1 10 [0]).2.sum = 20 ∧
    (20 : ℚ) ≠ 10 := by
  refine ⟨?_, ?_, ?_⟩ <;>
    norm_num [normalResource_update, sortAscLevel, insertAscLevel,
      diffusionStep, List.range, List.range.loop, List.filter]
